import Mathlib

/-!
Shallow embedding of the doffy-go-bootstrap dependency-injection core
(libs/core: provider.go, module.go, request_container.go, plugin.go and the
module container / module graph files), together with theorems settling the
frozen claims about it.

Modelling conventions:
* Go `interface{}` service instances are modelled by the inductive `Value`;
  fresh allocations (a factory returning a newly created object) are
  modelled by `Value.fresh` applied to a monotone allocation counter that
  the world threads through resolution, so that "reference equality" of
  instances is equality of allocation ids.
* Go maps used as assoc stores (`services`, `requestData`, ...) are modelled
  by association lists in insertion order; Go map iteration order (used by
  `TopologicalSort`'s seeding) is determinized to registration order.
* Machine integers do not occur on the modelled paths; durations are `Nat`
  time units.  A Go `context.Context` is modelled by its remaining time
  budget (`Ctx.remaining`), `context.Background()` by an unbounded budget.
* Host-supplied factory functions are modelled by the closed inductive
  `FactoryM` / `AsyncFactoryM` of the behaviours the claims exercise
  (return a constant, allocate a fresh instance, fail, or take a given
  amount of time while honouring the context deadline).  The factories in
  the source receive the container as an argument; none of the modelled
  behaviours resolves further services, so that argument is dropped.
* Errors built with `fmt.Errorf` are modelled by constructors carrying the
  formatted-in data; `RErr.message` renders the exact Go format strings.
-/

namespace Doffy

/-- Service instance values (Go `interface{}`); `fresh id` is an object
allocated with allocation id `id`. -/
inductive Value where
  | str (s : String)
  | nat (n : Nat)
  | fresh (id : Nat)
deriving DecidableEq, Repr

/-- Context carrying the remaining time budget (none = no deadline),
modelling Go `context.Context` deadlines. -/
structure Ctx where
  remaining : Option Nat
deriving DecidableEq, Repr

/-- Model of `context.Background()`: no deadline. -/
def ctxBackground : Ctx := ⟨none⟩

/-- Model of `context.WithTimeout(ctx, t)`: the remaining budget becomes `t`,
or the smaller of `t` and the already-remaining budget. -/
def Ctx.withTimeout (ctx : Ctx) (t : Nat) : Ctx :=
  match ctx.remaining with
  | none => ⟨some t⟩
  | some r => ⟨some (min r t)⟩

/-- Go `Lifetime` is an `int` (`iota`); keeping it as `Nat` preserves the
`default:` (unknown lifetime) branches of the resolution switches. -/
abbrev Lifetime := Nat

/-- Lifetime `Singleton` (= 0 in the source). -/
def SingletonL : Lifetime := 0

/-- Lifetime `Transient` (= 1 in the source). -/
def TransientL : Lifetime := 1

/-- Lifetime `Scoped` (= 2 in the source). -/
def ScopedL : Lifetime := 2

/-- Resolution/registration errors of the container layer. -/
inductive RErr where
  | notRegistered (name : String)
  | notRegisteredInModule (name moduleName : String)
  | accessDenied (fromModule serviceName toModule : String)
  | singletonFailed (name : String) (inner : RErr)
  | unknownLifetime (name : String)
  | alreadyRegistered (name : String)
  | construction (msg : String)
  | deadlineExceeded
  | noContainer (cid : Nat)
  | fuelOut
deriving DecidableEq, Repr

/-- Renders the Go error strings for each error constructor
(`context.DeadlineExceeded` renders as its standard message). -/
def RErr.message : RErr → String
  | .notRegistered n => "service '" ++ n ++ "' is not registered"
  | .notRegisteredInModule n m =>
      "service '" ++ n ++ "' is not registered in module '" ++ m ++ "'"
  | .accessDenied f s t =>
      "module '" ++ f ++ "' cannot access unexported provider '" ++ s ++
        "' from module '" ++ t ++ "'"
  | .singletonFailed n e =>
      "failed to create singleton service '" ++ n ++ "': " ++ e.message
  | .unknownLifetime n => "unknown lifetime for service '" ++ n ++ "'"
  | .alreadyRegistered n => "service '" ++ n ++ "' is already registered"
  | .construction m => m
  | .deadlineExceeded => "context deadline exceeded"
  | .noContainer i => "invalid container id " ++ toString i
  | .fuelOut => "resolution did not terminate"

instance {α β : Type} [DecidableEq α] [DecidableEq β] : DecidableEq (Except α β) :=
  fun a b =>
    match a, b with
    | .ok x, .ok y =>
        if h : x = y then isTrue (by rw [h]) else isFalse (by simp [h])
    | .error x, .error y =>
        if h : x = y then isTrue (by rw [h]) else isFalse (by simp [h])
    | .ok _, .error _ => isFalse (by simp)
    | .error _, .ok _ => isFalse (by simp)

/-- Model of a host-supplied synchronous factory body (`Factory`). -/
inductive FactoryM where
  | const (v : Value)
  | alloc
  | fail (msg : String)
deriving DecidableEq, Repr

/-- Model of a host-supplied asynchronous factory body (`AsyncFactory`);
`takes d v` needs `d` time units and honours the context deadline. -/
inductive AsyncFactoryM where
  | takes (d : Nat) (v : Value)
  | fail (msg : String)
deriving DecidableEq, Repr

/-- The four provider variants of provider.go (`FactoryProvider`,
`ClassProvider`, `ValueProvider`, `AsyncProvider`).  `classP` allocates a
fresh zero value per call (`reflect.New`), so it behaves like an allocating
factory. -/
inductive Provider where
  | factoryP (name : String) (fac : FactoryM) (lifetime : Lifetime)
  | classP (name : String) (lifetime : Lifetime)
  | valueP (name : String) (v : Value)
  | asyncP (name : String) (fac : AsyncFactoryM) (lifetime : Lifetime) (timeout : Nat)
deriving DecidableEq, Repr

/-- `GetName()`. -/
def Provider.getName : Provider → String
  | .factoryP n _ _ => n
  | .classP n _ => n
  | .valueP n _ => n
  | .asyncP n _ _ _ => n

/-- `GetLifetime()`; a `ValueProvider`'s lifetime is always `Singleton`. -/
def Provider.getLifetime : Provider → Lifetime
  | .factoryP _ _ l => l
  | .classP _ l => l
  | .valueP _ _ => SingletonL
  | .asyncP _ _ l _ => l

/-- `IsAsync()`. -/
def Provider.isAsync : Provider → Bool
  | .asyncP _ _ _ _ => true
  | _ => false

/-- Runs a synchronous factory model, threading the allocation counter. -/
def FactoryM.run (f : FactoryM) (alloc : Nat) : Except RErr Value × Nat :=
  match f with
  | .const v => (.ok v, alloc)
  | .alloc => (.ok (.fresh alloc), alloc + 1)
  | .fail msg => (.error (.construction msg), alloc)

/-- Runs an asynchronous factory model under a context: construction taking
`d` units completes iff `d` fits in the remaining budget, otherwise the
context is cancelled and the factory returns the deadline error. -/
def AsyncFactoryM.run (f : AsyncFactoryM) (ctx : Ctx) (alloc : Nat) :
    Except RErr Value × Nat :=
  match f with
  | .takes d v =>
      match ctx.remaining with
      | none => (.ok v, alloc)
      | some r => if d ≤ r then (.ok v, alloc) else (.error .deadlineExceeded, alloc)
  | .fail msg => (.error (.construction msg), alloc)

/-- `Provider.Resolve(container, ctx)`: the `AsyncProvider` case wraps the
caller's context with `context.WithTimeout` using the configured timeout,
defaulting to 30 time units when the timeout is unset (zero), before
delegating to the factory (provider.go lines 138-148). -/
def Provider.run (p : Provider) (ctx : Ctx) (alloc : Nat) : Except RErr Value × Nat :=
  match p with
  | .factoryP _ f _ => f.run alloc
  | .classP _ _ => (.ok (.fresh alloc), alloc + 1)
  | .valueP _ v => (.ok v, alloc)
  | .asyncP _ f _ timeout =>
      let t := if timeout = 0 then 30 else timeout
      f.run (ctx.withTimeout t) alloc

/-- Validation failures of `Module.Validate` (module.go lines 145-191); each
constructor corresponds to one `fmt.Errorf` site, carrying its data. -/
inductive ValidationError where
  | emptyName
  | emptyVersion
  | dupExport (e : String)
  | emptyProviderName
  | dupProvider (n : String)
  | exportNotFound (e : String)
  | pfxNoSlash (p : String)
  | pfxTraversal (p : String)
deriving DecidableEq, Repr

/-- The `Module` struct (module.go).  `Imports` holds module references in
the source; only the imported names are ever read (graph edges, import
validation), so they are kept as names.  The route-prefix field `Prefix`
is called `pfx` here.  The `Description` and `Controllers` fields play no
role in any claim and are omitted. -/
structure Module where
  name : String
  version : String
  imports : List String
  providers : List Provider
  exports : List String
  pfx : String
  global : Bool
deriving DecidableEq, Repr

/-- Export-duplicate scan of `Validate`: walks `exports` with the `seen`
set, reporting the first name already seen. -/
def findDupLoop : List String → List String → Option String
  | _, [] => none
  | seen, e :: es => if e ∈ seen then some e else findDupLoop (e :: seen) es

/-- Provider loop of `Validate`: rejects an empty provider name or a
duplicate, and collects the names (a nil provider cannot be represented).
Returns the collected name set on success. -/
def provLoop : List String → List Provider → Except ValidationError (List String)
  | names, [] => .ok names
  | names, p :: ps =>
    if p.getName = "" then .error .emptyProviderName
    else if p.getName ∈ names then .error (.dupProvider p.getName)
    else provLoop (p.getName :: names) ps

/-- Export-existence loop of `Validate`: first export not among the
collected provider names. -/
def firstNotIn (univ : List String) : List String → Option String
  | [] => none
  | e :: es => if e ∈ univ then firstNotIn univ es else some e

/-- `strings.Contains(s, "..")`. -/
def containsDotDot (s : String) : Bool := (s.splitOn "..").length ≠ 1

/-- `Module.ValidatePrefix` (module.go lines 224-240). -/
def Module.validatePfx (m : Module) : Except ValidationError Unit :=
  if m.pfx = "" then .ok ()
  else if m.pfx.startsWith "/" = false then .error (.pfxNoSlash m.pfx)
  else if containsDotDot m.pfx = true then .error (.pfxTraversal m.pfx)
  else .ok ()

/-- `Module.Validate` (module.go lines 145-191), in the source's order:
empty name, empty version, duplicate exports, provider loop (empty name /
duplicate provider), exports resolving to providers, then the prefix. -/
def Module.validate (m : Module) : Except ValidationError Unit :=
  if m.name = "" then .error .emptyName
  else if m.version = "" then .error .emptyVersion
  else match findDupLoop [] m.exports with
  | some e => .error (.dupExport e)
  | none =>
    match provLoop [] m.providers with
    | .error e => .error e
    | .ok pnames =>
      match firstNotIn pnames m.exports with
      | some e => .error (.exportNotFound e)
      | none => m.validatePfx

/-- `Module.IsExported` (pure linear scan of `Exports`). -/
def Module.isExportedB (m : Module) (providerName : String) : Bool :=
  m.exports.contains providerName

/-- `Module.GetFullPrefix`: empty stays empty, otherwise a leading slash is
ensured and one trailing slash dropped (`strings.TrimSuffix`). -/
def Module.getFullPfx (m : Module) : String :=
  if m.pfx = "" then ""
  else
    let p := if m.pfx.startsWith "/" then m.pfx else "/" ++ m.pfx
    if p.endsWith "/" then p.dropRight 1 else p

/-- `NewModule(name, version)`. -/
def mkModule (name version : String) : Module :=
  ⟨name, version, [], [], [], "", false⟩

/-- `DefaultModule(name, version)`: like `NewModule` but global. -/
def defaultModule (name version : String) : Module :=
  ⟨name, version, [], [], [], "", true⟩

/-- Process-wide encapsulation mode (provider.go lines 176-186). -/
inductive EncapsulationMode where
  | disabled
  | warn
  | enforce
deriving DecidableEq, Repr

/-- A registered service: the provider plus the lazily cached singleton
instance (`ServiceDefinition` in request_container.go). -/
structure ServiceDefinition where
  provider : Provider
  inst : Option Value
deriving DecidableEq, Repr

/-- Which concrete container type a heap slot holds: a plain `diContainer`,
a `ModuleContainer` (with its module), or a `RequestContainer`. -/
inductive CKind where
  | base
  | moduleK (m : Module)
  | requestK
deriving DecidableEq, Repr

/-- One container of the parent-chained heap.  `services`/`parent` are the
embedded `diContainer` fields; `decorators` exists on module containers,
`requestData`/`replyHelpers` on request containers (empty elsewhere).
Parent references are heap indices; every constructor below creates a child
after its parent, so parents have strictly smaller indices. -/
structure Container where
  kind : CKind
  services : List (String × ServiceDefinition)
  parent : Option Nat
  decorators : List (String × Value)
  requestData : List (String × Value)
  replyHelpers : List (String × Value)
deriving DecidableEq, Repr

/-- The container heap plus the process-wide state the core reads during
resolution: the allocation counter (modelling object identity), the
encapsulation mode and the warning sink (`os.Stderr` lines). -/
structure World where
  containers : List Container
  alloc : Nat
  encMode : EncapsulationMode
  warnings : List String
deriving DecidableEq, Repr

/-- Container ids are heap indices. -/
abbrev CId := Nat

/-- Go map write `m[k] = v` on an assoc list: replace in place or append. -/
def assocSet {β : Type} (l : List (String × β)) (k : String) (v : β) :
    List (String × β) :=
  match l with
  | [] => [(k, v)]
  | (k', v') :: rest =>
      if k' = k then (k, v) :: rest else (k', v') :: assocSet rest k v

/-- Caching a freshly built singleton: `service.Instance = instance`. -/
def svcCache (l : List (String × ServiceDefinition)) (n : String) (v : Value) :
    List (String × ServiceDefinition) :=
  l.map fun kd => if kd.1 = n then (kd.1, ⟨kd.2.provider, some v⟩) else kd

/-- `NewDIContainer()` as the root of a fresh world (no parent). -/
def mkRootWorld (mode : EncapsulationMode) : World :=
  ⟨[⟨.base, [], none, [], [], []⟩], 0, mode, []⟩

/-- `CreateScope()`: a fresh child `diContainer` whose parent is `cid`;
returns the world and the new container's id. -/
def World.createScope (w : World) (cid : CId) : World × CId :=
  (⟨w.containers ++ [⟨.base, [], some cid, [], [], []⟩],
    w.alloc, w.encMode, w.warnings⟩, w.containers.length)

/-- `NewModuleContainer(module, parent)`. -/
def World.newModuleContainer (w : World) (m : Module) (parentCid : CId) : World × CId :=
  (⟨w.containers ++ [⟨.moduleK m, [], some parentCid, [], [], []⟩],
    w.alloc, w.encMode, w.warnings⟩, w.containers.length)

/-- `NewRequestContainer(moduleContainer)` / `CreateRequestScope()`. -/
def World.newRequestContainer (w : World) (parentCid : CId) : World × CId :=
  (⟨w.containers ++ [⟨.requestK, [], some parentCid, [], [], []⟩],
    w.alloc, w.encMode, w.warnings⟩, w.containers.length)

/-- Replaces container `cid` in the heap. -/
def World.setC (w : World) (cid : CId) (c : Container) : World :=
  ⟨w.containers.set cid c, w.alloc, w.encMode, w.warnings⟩

/-- `diContainer.RegisterProvider` (request_container.go lines 432-450):
an already-present name is an error and the world is untouched; otherwise
the service is stored with no cached instance. -/
def registerProvider (w : World) (cid : CId) (p : Provider) :
    Except RErr Unit × World :=
  match w.containers[cid]? with
  | none => (.error (.noContainer cid), w)
  | some c =>
      if (c.services.lookup p.getName).isSome then
        (.error (.alreadyRegistered p.getName), w)
      else
        (.ok (), w.setC cid
          { c with services := c.services ++ [(p.getName, ⟨p, none⟩)] })

/-- `RequestContainer.DecorateRequest` (map write, last wins). -/
def decorateRequest (w : World) (cid : CId) (name : String) (v : Value) : World :=
  match w.containers[cid]? with
  | none => w
  | some c => w.setC cid { c with requestData := assocSet c.requestData name v }

/-- `RequestContainer.DecorateReply`. -/
def decorateReply (w : World) (cid : CId) (name : String) (v : Value) : World :=
  match w.containers[cid]? with
  | none => w
  | some c => w.setC cid { c with replyHelpers := assocSet c.replyHelpers name v }

/-- `ModuleContainer.Decorate`: errors on an existing decorator. -/
def decorateModule (w : World) (cid : CId) (name : String) (v : Value) :
    Except RErr Unit × World :=
  match w.containers[cid]? with
  | none => (.error (.noContainer cid), w)
  | some c =>
      if (c.decorators.lookup name).isSome then
        (.error (.alreadyRegistered name), w)
      else
        (.ok (), w.setC cid { c with decorators := c.decorators ++ [(name, v)] })

/-- `CheckEncapsulationViolation(from, to, service)` (provider.go lines
217-241): Disabled allows; Warn writes one warning line and allows;
Enforce denies with the descriptive error.  `.ok` plays the role of the
`(true, nil)` result, `.error` of `(false, err)`. -/
def checkEncapsulationViolation (w : World) (fromModule toModule serviceName : String) :
    Except RErr Unit × World :=
  match w.encMode with
  | .disabled => (.ok (), w)
  | .warn =>
      (.ok (), ⟨w.containers, w.alloc, w.encMode,
        w.warnings ++ ["WARNING: " ++
          (RErr.accessDenied fromModule serviceName toModule).message]⟩)
  | .enforce =>
      (.error (.accessDenied fromModule serviceName toModule), w)

/-- `ModuleContainer.GetDecorator`: own decorators first, then the parent's,
but only while the parent is itself a module container.  Fuel bounds the
parent chain (parents have smaller ids, so `containers.length + 1` always
suffices). -/
def getDecoratorF (w : World) : Nat → CId → String → Option Value
  | 0, _, _ => none
  | fuel + 1, cid, name =>
      match w.containers[cid]? with
      | none => none
      | some c =>
          match c.decorators.lookup name with
          | some v => some v
          | none =>
              match c.parent with
              | none => none
              | some pid =>
                  match w.containers[pid]? with
                  | none => none
                  | some pc =>
                      match pc.kind with
                      | .moduleK _ => getDecoratorF w fuel pid name
                      | _ => none

/-- Which `ResolveWithContext` implementation runs: Go dispatches on the
concrete receiver type.  Needed separately from `Container.kind` because of
one promotion quirk: a `*ModuleContainer` has no `Resolve` of its own, so
`parent.Resolve(name)` on it runs the embedded `diContainer`'s algorithm
against the module container's fields. -/
inductive Algo where
  | baseA
  | moduleA
  | requestA
deriving DecidableEq, Repr

/-- Dynamic dispatch through the `ResolveWithContext` interface check. -/
def algoOfKind : CKind → Algo
  | .base => .baseA
  | .moduleK _ => .moduleA
  | .requestK => .requestA

/-- The lifetime switch shared by `diContainer.ResolveWithContext` (lines
509-537) and `ModuleContainer.ResolveWithContext` (lines 121-149): cached
singletons are returned, a first singleton resolution is cached in the
container, Transient and Scoped invoke the provider every time, anything
else is the defensive unknown-lifetime error. -/
def runLifetimeCaching (w : World) (cid : CId) (c : Container) (name : String)
    (svc : ServiceDefinition) (ctx : Ctx) : Except RErr Value × World :=
  let p := svc.provider
  if p.getLifetime = SingletonL then
    match svc.inst with
    | some v => (.ok v, w)
    | none =>
        match p.run ctx w.alloc with
        | (.error e, a') =>
            (.error (.singletonFailed name e), ⟨w.containers, a', w.encMode, w.warnings⟩)
        | (.ok v, a') =>
            (.ok v, ⟨w.containers.set cid { c with services := svcCache c.services name v },
              a', w.encMode, w.warnings⟩)
  else if p.getLifetime = TransientL then
    let (r, a') := p.run ctx w.alloc
    (r, ⟨w.containers, a', w.encMode, w.warnings⟩)
  else if p.getLifetime = ScopedL then
    let (r, a') := p.run ctx w.alloc
    (r, ⟨w.containers, a', w.encMode, w.warnings⟩)
  else (.error (.unknownLifetime name), w)

/-- The lifetime switch of `RequestContainer.ResolveWithContext` (lines
89-108): Singleton, Transient and Scoped all invoke the provider with no
caching (request containers never cache singletons). -/
def runLifetimeRequest (w : World) (name : String) (svc : ServiceDefinition)
    (ctx : Ctx) : Except RErr Value × World :=
  let p := svc.provider
  if p.getLifetime = SingletonL ∨ p.getLifetime = TransientL ∨
      p.getLifetime = ScopedL then
    let (r, a') := p.run ctx w.alloc
    (r, ⟨w.containers, a', w.encMode, w.warnings⟩)
  else (.error (.unknownLifetime name), w)

/-- The three `ResolveWithContext` implementations, as one fuel-indexed
function dispatching on `Algo`; each parent delegation consumes one fuel.

`.baseA` is diContainer.ResolveWithContext (request_container.go 491-538):
local services, else the parent — with the full context only when the
parent is concretely a `*diContainer`, otherwise via `parent.Resolve(name)`
(for a module container that promotes to the embedded base algorithm on a
background context; for a request container to its own resolver).

`.moduleA` is ModuleContainer.ResolveWithContext (lines 107-180):
decorators, local services, then the parent, enforcing encapsulation first
when the parent is a module container and neither module is global and the
name is not exported by the parent's module.

`.requestA` is RequestContainer.ResolveWithContext (lines 73-120):
request-local decorated values, reply helpers, local services without
caching, then the module container.

The two `.noContainer` fall-through arms for a kind/algo mismatch are
unreachable for worlds built by the constructors above: Go ties each
method body to its concrete receiver type. -/
def resolveGo : Nat → World → Algo → CId → String → Ctx → Except RErr Value × World
  | 0, w, _, _, _, _ => (.error .fuelOut, w)
  | fuel + 1, w, algo, cid, name, ctx =>
      match w.containers[cid]? with
      | none => (.error (.noContainer cid), w)
      | some c =>
          match algo with
          | .baseA =>
              match c.services.lookup name with
              | some svc => runLifetimeCaching w cid c name svc ctx
              | none =>
                  match c.parent with
                  | none => (.error (.notRegistered name), w)
                  | some pid =>
                      match w.containers[pid]? with
                      | none => (.error (.noContainer pid), w)
                      | some pc =>
                          match pc.kind with
                          | .base => resolveGo fuel w .baseA pid name ctx
                          | .moduleK _ => resolveGo fuel w .baseA pid name ctxBackground
                          | .requestK => resolveGo fuel w .requestA pid name ctxBackground
          | .moduleA =>
              match c.kind with
              | .moduleK m =>
                  match getDecoratorF w (w.containers.length + 1) cid name with
                  | some v => (.ok v, w)
                  | none =>
                      match c.services.lookup name with
                      | some svc => runLifetimeCaching w cid c name svc ctx
                      | none =>
                          match c.parent with
                          | none => (.error (.notRegisteredInModule name m.name), w)
                          | some pid =>
                              match w.containers[pid]? with
                              | none => (.error (.noContainer pid), w)
                              | some pc =>
                                  match pc.kind with
                                  | .moduleK pm =>
                                      if m.global = false ∧ pm.global = false then
                                        if pm.isExportedB name = false then
                                          match checkEncapsulationViolation w m.name pm.name name with
                                          | (.error e, w') => (.error e, w')
                                          | (.ok _, w') => resolveGo fuel w' .moduleA pid name ctx
                                        else resolveGo fuel w .moduleA pid name ctx
                                      else resolveGo fuel w .moduleA pid name ctx
                                  | k => resolveGo fuel w (algoOfKind k) pid name ctx
              | _ => (.error (.noContainer cid), w)
          | .requestA =>
              match c.requestData.lookup name with
              | some v => (.ok v, w)
              | none =>
                  match c.replyHelpers.lookup name with
                  | some v => (.ok v, w)
                  | none =>
                      match c.services.lookup name with
                      | some svc => runLifetimeRequest w name svc ctx
                      | none =>
                          match c.parent with
                          | none => (.error (.notRegistered name), w)
                          | some pid =>
                              match w.containers[pid]? with
                              | none => (.error (.noContainer pid), w)
                              | some pc => resolveGo fuel w (algoOfKind pc.kind) pid name ctx

/-- Entry point `ResolveWithContext(name, ctx)` on container `cid`:
dispatches on the container's concrete type.  Fuel `containers.length + 1`
always suffices because parent ids strictly decrease along the chain. -/
def World.resolve (w : World) (cid : CId) (name : String) (ctx : Ctx) :
    Except RErr Value × World :=
  match w.containers[cid]? with
  | none => (.error (.noContainer cid), w)
  | some c => resolveGo (w.containers.length + 1) w (algoOfKind c.kind) cid name ctx

/-- Graph-layer errors (`AddModule`, `ValidateImports`). -/
inductive GErr where
  | nilModule
  | validation (e : ValidationError)
  | duplicateModule (n : String)
  | missingImport (moduleName dep : String)
deriving DecidableEq, Repr

/-- `ModuleGraph`: the registered modules and the derived adjacency lists.
Both Go maps are kept in registration order. -/
structure ModuleGraph where
  modules : List Module
  edges : List (String × List String)
deriving DecidableEq, Repr

/-- `NewModuleGraph()`. -/
def emptyGraph : ModuleGraph := ⟨[], []⟩

/-- Registered module names, in registration order. -/
def ModuleGraph.names (g : ModuleGraph) : List String := g.modules.map Module.name

/-- Go `g.modules[name]` read. -/
def ModuleGraph.findModule (g : ModuleGraph) (n : String) : Option Module :=
  g.modules.find? fun m => m.name = n

/-- Go `g.edges[name]` read (a missing key reads as the empty list). -/
def ModuleGraph.depsOf (g : ModuleGraph) (n : String) : List String :=
  (g.edges.lookup n).getD []

/-- `AddModule(module)`: nil check, re-validation, duplicate-name check, then
the module and its import edges are recorded. -/
def ModuleGraph.addModule (g : ModuleGraph) (m? : Option Module) :
    Except GErr Unit × ModuleGraph :=
  match m? with
  | none => (.error .nilModule, g)
  | some m =>
      match m.validate with
      | .error e => (.error (.validation e), g)
      | .ok _ =>
          if (g.findModule m.name).isSome then (.error (.duplicateModule m.name), g)
          else (.ok (), ⟨g.modules ++ [m], g.edges ++ [(m.name, m.imports)]⟩)

/-- `ValidateImports(module)`: the first import not registered in the graph. -/
def ModuleGraph.validateImports (g : ModuleGraph) (m : Module) : Except GErr Unit :=
  match m.imports.find? (fun d => (g.findModule d).isNone) with
  | some d => .error (.missingImport m.name d)
  | none => .ok ()

/-- Outcomes of `TopologicalSort`: the circular-dependency error carries the
module at which the depth-first traversal re-entered its own stack
(`buildCyclePath` returns exactly that module), the missing-dependency
error carries both module names.  `fuelOut` is a model artifact that the
fuel-sufficiency lemma below rules out. -/
inductive TErr where
  | circular (name : String)
  | missingDep (moduleName dep : String)
  | fuelOut
deriving DecidableEq, Repr

/-- The DFS state: the `visited` set and the post-order list.  (`temp` is
modelled by the recursion stack: the source sets `temp[name]` on entry and
clears it on exit, so its content is exactly the chain of active calls.) -/
structure TSState where
  visited : List String
  postOrder : List String
deriving DecidableEq, Repr

/-- The recursive `visit` closure of `TopologicalSort` (lines 276-303 of the
graph file): a stack hit is the circular-dependency error, a visited node is
skipped, otherwise every dependency is checked to exist and visited first,
and the node is appended to the post-order list after its dependencies. -/
def visitNode (g : ModuleGraph) : Nat → List String → String → TSState → Except TErr TSState
  | 0, _, _, _ => .error .fuelOut
  | fuel + 1, stack, name, s =>
      if name ∈ stack then .error (.circular name)
      else if name ∈ s.visited then .ok s
      else
        match (g.depsOf name).foldlM
          (fun st d =>
            if (g.findModule d).isNone then .error (.missingDep name d)
            else visitNode g fuel (name :: stack) d st) s with
        | .error e => .error e
        | .ok s' => .ok ⟨name :: s'.visited, s'.postOrder ++ [name]⟩

/-- The seeding of the top-level loop: modules with no dependencies first,
then the rest (map iteration determinized to registration order). -/
def ModuleGraph.seedOrder (g : ModuleGraph) : List String :=
  g.names.filter (fun n => (g.depsOf n).isEmpty) ++
    g.names.filter (fun n => ¬ (g.depsOf n).isEmpty)

/-- The top-level loop of `TopologicalSort` (lines 323-329): visit every
seed not yet visited, propagating the first error. -/
def visitAll (g : ModuleGraph) (fuel : Nat) : List String → TSState → Except TErr TSState
  | [], s => .ok s
  | n :: ns, s =>
      if n ∈ s.visited then visitAll g fuel ns s
      else
        match visitNode g fuel [] n s with
        | .error e => .error e
        | .ok s' => visitAll g fuel ns s'

/-- `TopologicalSort()` (lines 270-339), returning module names: the DFS
post-order is built and then REVERSED (lines 333-336) before being
returned. -/
def ModuleGraph.topologicalSort (g : ModuleGraph) : Except TErr (List String) :=
  match visitAll g (g.modules.length + 1) g.seedOrder ⟨[], []⟩ with
  | .error e => .error e
  | .ok s => .ok s.postOrder.reverse

/-- `ValidateGraph()`: missing-edge scan, then a full sort. -/
def ModuleGraph.validateGraph (g : ModuleGraph) : Except TErr Unit :=
  match g.edges.find? (fun nd => nd.2.any fun d => (g.findModule d).isNone) with
  | some nd => .error (.missingDep nd.1 ((nd.2.find? fun d => (g.findModule d).isNone).getD ""))
  | none =>
      match g.topologicalSort with
      | .error e => .error e
      | .ok _ => .ok ()

/-- Host-supplied plugin (the `Plugin` interface of plugin.go).  `Register`
bodies are external code; they are modelled as registering the listed
providers into the manager's container in order and then returning
success or failure (`regOk`).  `moduleDef = none` is a legacy plugin
without a `Module()` (wrapped in `DefaultModule`). -/
structure Plugin where
  name : String
  version : String
  moduleDef : Option Module
  regProviders : List Provider
  regOk : Bool
deriving DecidableEq, Repr

/-- Errors of `PluginManager.RegisterPlugin`; wrapping constructors carry
the wrapped error (`%w`), and `registrationFailed` is the constant
`ErrPluginRegistrationFailed` that discards the inner error. -/
inductive PErr where
  | nilPlugin
  | alreadyRegistered
  | exportValidation (e : ValidationError)
  | moduleRegistration (e : GErr)
  | importValidation (e : GErr)
  | registrationFailed
deriving DecidableEq, Repr

/-- `PluginManager` state: registered plugin names (in order), the module
graph, the DI world with the manager's root container id, and the recorded
route prefixes. -/
structure PluginManager where
  plugins : List String
  graph : ModuleGraph
  world : World
  rootCid : CId
  modulePrefixes : List (String × String)
deriving DecidableEq, Repr

/-- `NewPluginManager` over a fresh root container. -/
def mkPluginManager (mode : EncapsulationMode) : PluginManager :=
  ⟨[], emptyGraph, mkRootWorld mode, 0, []⟩

/-- The modelled `plugin.Register(container)` body: registers the listed
providers in order, stopping at the first error, then returns `regOk`. -/
def pluginRegister (w : World) (cid : CId) : List Provider → Bool →
    Except RErr Unit × World
  | [], ok => (if ok then .ok () else .error (.construction "register failed"), w)
  | p :: ps, ok =>
      match registerProvider w cid p with
      | (.error e, w') => (.error e, w')
      | (.ok _, w') => pluginRegister w' cid ps ok

/-- The module a plugin registers under: its own `Module()` or the
backward-compatible `DefaultModule` wrapper. -/
def Plugin.moduleOf (pl : Plugin) : Module :=
  pl.moduleDef.getD (defaultModule pl.name pl.version)

/-- `PluginManager.RegisterPlugin` (plugin.go lines 84-147), in source
order: nil check; duplicate-plugin check; `ValidateExports` (which is
`Validate`); `AddModule` — which MUTATES the graph on success; then
`ValidateImports`, whose failure leaves the module in the graph; then the
route-prefix is recorded; then `plugin.Register`, whose failure leaves
both graph and prefix recorded; finally the plugin is stored.  (Lifecycle
hooks carry no claim and are omitted.) -/
def registerPlugin (pm : PluginManager) (pl? : Option Plugin) :
    Except PErr Unit × PluginManager :=
  match pl? with
  | none => (.error .nilPlugin, pm)
  | some pl =>
      if pl.name ∈ pm.plugins then (.error .alreadyRegistered, pm)
      else
        let module := pl.moduleOf
        match module.validate with
        | .error e => (.error (.exportValidation e), pm)
        | .ok _ =>
            match pm.graph.addModule (some module) with
            | (.error e, _) => (.error (.moduleRegistration e), pm)
            | (.ok _, g') =>
                match g'.validateImports module with
                | .error e => (.error (.importValidation e), { pm with graph := g' })
                | .ok _ =>
                    let pfxs := assocSet pm.modulePrefixes module.name module.getFullPfx
                    let pm' := { pm with graph := g', modulePrefixes := pfxs }
                    match pluginRegister pm'.world pm'.rootCid pl.regProviders pl.regOk with
                    | (.error _, w') => (.error .registrationFailed, { pm' with world := w' })
                    | (.ok _, w') =>
                        (.ok (), { pm' with world := w', plugins := pm'.plugins ++ [pl.name] })

/-- `GetInitializationOrder` (plugin.go lines 308-322): a failing sort
propagates its error before anything is initialized; on success the sorted
module names are filtered to registered plugins. -/
def PluginManager.getInitializationOrder (pm : PluginManager) :
    Except TErr (List String) :=
  match pm.graph.topologicalSort with
  | .error e => .error e
  | .ok sorted => .ok (sorted.filter fun n => n ∈ pm.plugins)

/-!  Auxiliary list lemmas for the container proofs. -/

theorem lookup_cons_eq {β : Type} (kv : String × β) (l : List (String × β))
    (k : String) (h : k = kv.1) : (kv :: l).lookup k = some kv.2 := by
  obtain ⟨a, b⟩ := kv
  simp only at h
  simp [List.lookup, h]

theorem lookup_cons_ne {β : Type} (kv : String × β) (l : List (String × β))
    (k : String) (h : ¬ k = kv.1) : (kv :: l).lookup k = l.lookup k := by
  obtain ⟨a, b⟩ := kv
  simp only at h
  have hb : (k == a) = false := by simp [h]
  simp [List.lookup, hb]

theorem mem_of_lookup {β : Type} (l : List (String × β)) (k : String) (v : β)
    (h : l.lookup k = some v) : (k, v) ∈ l := by
  induction l with
  | nil => simp [List.lookup] at h
  | cons kv l ih =>
      by_cases he : k = kv.1
      · rw [lookup_cons_eq kv l k he] at h
        injection h with h
        subst h
        rw [he]
        exact List.mem_cons_self _ _
      · rw [lookup_cons_ne kv l k he] at h
        exact List.mem_cons_of_mem _ (ih h)

theorem lookup_assocSet {β : Type} (l : List (String × β)) (k : String) (v : β) :
    (assocSet l k v).lookup k = some v := by
  induction l with
  | nil => simp [assocSet, List.lookup]
  | cons kv l ih =>
      by_cases he : kv.1 = k
      · simp only [assocSet, if_pos he]
        exact lookup_cons_eq _ _ _ rfl
      · simp only [assocSet, if_neg he]
        rw [lookup_cons_ne kv _ k (fun hc => he hc.symm)]
        exact ih

theorem lookup_append_single {β : Type} (l : List (String × β)) (k : String) (v : β)
    (h : l.lookup k = none) : (l ++ [(k, v)]).lookup k = some v := by
  induction l with
  | nil => simp [List.lookup]
  | cons kv l ih =>
      by_cases he : k = kv.1
      · rw [lookup_cons_eq kv l k he] at h
        cases h
      · rw [lookup_cons_ne kv l k he] at h
        rw [List.cons_append, lookup_cons_ne kv _ k he]
        exact ih h

theorem lookup_svcCache (l : List (String × ServiceDefinition)) (n : String)
    (v : Value) (d : ServiceDefinition) (h : l.lookup n = some d) :
    (svcCache l n v).lookup n = some ⟨d.provider, some v⟩ := by
  induction l with
  | nil => simp [List.lookup] at h
  | cons kv l ih =>
      by_cases he : n = kv.1
      · rw [lookup_cons_eq kv l n he] at h
        injection h with h
        simp only [svcCache, List.map_cons, if_pos he.symm]
        rw [lookup_cons_eq (kv.1, ServiceDefinition.mk kv.2.provider (some v)) _ n he]
        simp [h]
      · rw [lookup_cons_ne kv l n he] at h
        simp only [svcCache, List.map_cons,
          if_neg (fun hc : kv.1 = n => he hc.symm)]
        rw [lookup_cons_ne kv _ n he]
        exact ih h

theorem set_eq_self {α : Type} (l : List α) (i : Nat) (a : α)
    (h : l[i]? = some a) : l.set i a = l := by
  induction l generalizing i with
  | nil => simp at h
  | cons x xs ih =>
      cases i with
      | zero => simp at h; simp [h]
      | succ j =>
          simp only [List.getElem?_cons_succ] at h
          simp [List.set, ih j h]

/-- Everything `GetDecorator` reads from a container. -/
def decoView (w : World) : List (List (String × Value) × Option Nat × CKind) :=
  w.containers.map fun c => (c.decorators, c.parent, c.kind)

theorem getDecoratorF_congr (w w' : World) (h : decoView w = decoView w') :
    ∀ fuel j name, getDecoratorF w fuel j name = getDecoratorF w' fuel j name := by
  intro fuel
  induction fuel with
  | zero => intro j name; rfl
  | succ fuel ih =>
      intro j name
      have hj : (w.containers[j]?).map (fun c => (c.decorators, c.parent, c.kind)) =
          (w'.containers[j]?).map (fun c => (c.decorators, c.parent, c.kind)) := by
        have hcong := congrArg (fun l => l[j]?) h
        simpa [decoView, List.getElem?_map] using hcong
      rcases hc : w.containers[j]? with _ | c <;>
        rcases hc' : w'.containers[j]? with _ | c' <;>
          rw [hc, hc'] at hj
      · simp [getDecoratorF, hc, hc']
      · simp at hj
      · simp at hj
      · simp only [Option.map_some'] at hj
        injection hj with hj
        have hdec : c.decorators = c'.decorators := congrArg Prod.fst hj
        have hpar : c.parent = c'.parent := congrArg Prod.fst (congrArg Prod.snd hj)
        simp only [getDecoratorF, hc, hc', hdec, hpar]
        rcases hdl : c'.decorators.lookup name with _ | v
        · simp only [hdl]
          rcases hpp : c'.parent with _ | pid
          · rfl
          · have hp : (w.containers[pid]?).map (fun c => (c.decorators, c.parent, c.kind)) =
                (w'.containers[pid]?).map (fun c => (c.decorators, c.parent, c.kind)) := by
              have hcong := congrArg (fun l => l[pid]?) h
              simpa [decoView, List.getElem?_map] using hcong
            rcases hpc : w.containers[pid]? with _ | pc <;>
              rcases hpc' : w'.containers[pid]? with _ | pc' <;>
                rw [hpc, hpc'] at hp
            · simp [hpc, hpc']
            · simp at hp
            · simp at hp
            · simp only [Option.map_some'] at hp
              injection hp with hp
              have hpknd : pc.kind = pc'.kind := congrArg Prod.snd (congrArg Prod.snd hp)
              simp only [hpc, hpc', hpknd]
              rcases hk : pc'.kind with _ | m | _ <;> simp only [hk]
              exact ih pid name
        · simp only [hdl]

theorem decoView_setServices (w : World) (cid : CId) (c : Container)
    (svcs : List (String × ServiceDefinition)) (hc : w.containers[cid]? = some c) :
    decoView (w.setC cid { c with services := svcs }) = decoView w := by
  simp only [decoView, World.setC, List.map_set]
  apply set_eq_self
  rw [List.getElem?_map, hc]
  rfl

/-- Resolution that finds the name in the container's own services map runs
the shared caching lifetime switch, both for a plain `diContainer` and for a
`ModuleContainer` with no matching decorator. -/
theorem resolve_local_hit (w : World) (cid : CId) (c : Container) (name : String)
    (svc : ServiceDefinition) (ctx : Ctx)
    (hc : w.containers[cid]? = some c)
    (hs : c.services.lookup name = some svc)
    (hkd : c.kind = .base ∨ ∃ m, c.kind = .moduleK m ∧
        getDecoratorF w (w.containers.length + 1) cid name = none) :
    w.resolve cid name ctx = runLifetimeCaching w cid c name svc ctx := by
  rcases hkd with hk | ⟨m, hk, hdec⟩
  · simp only [World.resolve, hc, hk, algoOfKind, resolveGo, hs]
  · simp only [World.resolve, hc, hk, algoOfKind, resolveGo, hdec, hs]

/-!  Concrete scenarios used by the claims. -/

/-- The leaf/middle/root scenario of the spec and of the repository's own
test `TestModuleGraph_TopologicalSort`: `leaf` has no imports, `middle`
imports `leaf`, `root` imports `middle`, registered in that order through
`AddModule`. -/
def gLMR : ModuleGraph :=
  (((emptyGraph.addModule (some (mkModule "leaf" "1.0.0"))).2.addModule
      (some { mkModule "middle" "1.0.0" with imports := ["leaf"] })).2.addModule
      (some { mkModule "root" "1.0.0" with imports := ["middle"] })).2

/-- The cyclic scenario a→b→c→a of the spec. -/
def gCyc : ModuleGraph :=
  ⟨[{ mkModule "a" "1.0.0" with imports := ["b"] },
    { mkModule "b" "1.0.0" with imports := ["c"] },
    { mkModule "c" "1.0.0" with imports := ["a"] }],
   [("a", ["b"]), ("b", ["c"]), ("c", ["a"])]⟩

/-- Parent module `P` of the encapsulation scenario. -/
def modP (g : Bool) : Module := { mkModule "P" "1.0.0" with global := g }

/-- Child module `C` of the encapsulation scenario; it imports `P`. -/
def modC (g : Bool) : Module := { mkModule "C" "1.0.0" with imports := ["P"], global := g }

/-- Encapsulation scenario world: root container 0, `P`'s module container 1
(parent 0) holding the non-exported provider `x`, and `C`'s module
container 2 whose parent is `P`'s container. -/
def w4 (mode : EncapsulationMode) (pG cG : Bool) : World :=
  ⟨[⟨.base, [], none, [], [], []⟩,
    ⟨.moduleK (modP pG), [("x", ⟨.valueP "x" (.nat 7), none⟩)], some 0, [], [], []⟩,
    ⟨.moduleK (modC cG), [], some 1, [], [], []⟩],
   0, mode, []⟩

/-- The order the spec, the doc comment of `TopologicalSort` and the test
`TestModuleGraph_TopologicalSort` all expect for the scenario. -/
def lmrExpected : List String := ["leaf", "middle", "root"]

/-- Claim C1: the leaf/middle/root scenario.  `TopologicalSort` succeeds,
but because the DFS post-order (which already lists dependencies first) is
reversed before being returned (lines 331-336 of the graph file), the
returned order is `[root, middle, leaf]` — each module comes strictly
BEFORE the modules it imports, the exact opposite of the claimed (and of
the function's own doc comment's and of `TestModuleGraph_TopologicalSort`'s)
order `[leaf, middle, root]`. -/
theorem c1_sorted_order_is_reversed :
    gLMR.topologicalSort = .ok ["root", "middle", "leaf"] ∧
    (["root", "middle", "leaf"] : List String) ≠ lmrExpected := by
  constructor
  · rfl
  · decide

/-- Claim C4: with parent module `P` holding non-exported provider `x` and
child module `C` (container child of `P`'s container) resolving `x`:
Enforce denies with an error naming `C`, `x` and `P`; Warn succeeds and
writes exactly one warning line; Disabled succeeds silently; and with
either module marked global the resolution succeeds under every mode. -/
theorem c4_encapsulation_modes :
    ((w4 .enforce false false).resolve 2 "x" ctxBackground).1
        = .error (.accessDenied "C" "x" "P")
  ∧ ((w4 .warn false false).resolve 2 "x" ctxBackground).1 = .ok (.nat 7)
  ∧ ((w4 .warn false false).resolve 2 "x" ctxBackground).2.warnings
        = ["WARNING: " ++ (RErr.accessDenied "C" "x" "P").message]
  ∧ ((w4 .disabled false false).resolve 2 "x" ctxBackground).1 = .ok (.nat 7)
  ∧ ((w4 .disabled false false).resolve 2 "x" ctxBackground).2.warnings = []
  ∧ (∀ mode : EncapsulationMode,
      ((w4 mode true false).resolve 2 "x" ctxBackground).1 = .ok (.nat 7)
    ∧ ((w4 mode false true).resolve 2 "x" ctxBackground).1 = .ok (.nat 7)
    ∧ ((w4 mode true true).resolve 2 "x" ctxBackground).1 = .ok (.nat 7)) := by
  refine ⟨rfl, rfl, rfl, rfl, rfl, ?_⟩
  intro mode
  cases mode <;> exact ⟨rfl, rfl, rfl⟩

/-- Claim C7: `AsyncProvider.Resolve` wraps the caller's context with a
deadline from the configured timeout, defaulting to 30 time units when the
timeout is zero; a construction running past the deadline yields the
deadline-exceeded error, which is distinct from every ordinary construction
failure (and a failing factory's error passes through unchanged). -/
theorem c7_async_provider_deadline (n : String) (d r : Nat) (v : Value)
    (lt : Lifetime) (t : Nat) (a : Nat) (msg : String) :
    ((Provider.asyncP n (.takes d v) lt t).run ⟨none⟩ a =
      if d ≤ (if t = 0 then 30 else t) then (.ok v, a)
      else (.error .deadlineExceeded, a))
  ∧ ((Provider.asyncP n (.takes d v) lt t).run ⟨some r⟩ a =
      if d ≤ min r (if t = 0 then 30 else t) then (.ok v, a)
      else (.error .deadlineExceeded, a))
  ∧ ((Provider.asyncP n (.fail msg) lt t).run ⟨some r⟩ a
        = (.error (.construction msg), a))
  ∧ RErr.deadlineExceeded ≠ RErr.construction msg := by
  refine ⟨?_, ?_, ?_, by simp⟩
  · simp only [Provider.run, AsyncFactoryM.run, Ctx.withTimeout]
  · simp only [Provider.run, AsyncFactoryM.run, Ctx.withTimeout]
  · simp only [Provider.run, AsyncFactoryM.run, Ctx.withTimeout]

/-!  Characterizations of the `Module.Validate` loops. -/

theorem findDupLoop_eq_none_iff (l : List String) :
    ∀ seen, findDupLoop seen l = none ↔ l.Nodup ∧ ∀ x ∈ l, x ∉ seen := by
  induction l with
  | nil => intro seen; simp [findDupLoop]
  | cons e es ih =>
      intro seen
      by_cases he : e ∈ seen
      · simp [findDupLoop, he]
      · simp only [findDupLoop, if_neg he, ih, List.nodup_cons, List.mem_cons]
        constructor
        · rintro ⟨hnd, hall⟩
          have hes : ∀ x ∈ es, x ≠ e ∧ x ∉ seen := by
            intro x hx
            have := hall x hx
            simp only [List.mem_cons] at this
            exact ⟨fun h => this (Or.inl h), fun h => this (Or.inr h)⟩
          refine ⟨⟨fun hmem => (hes e hmem).1 rfl, hnd⟩, ?_⟩
          rintro x (rfl | hx)
          · exact he
          · exact (hes x hx).2
        · rintro ⟨⟨hne, hnd⟩, hall⟩
          refine ⟨hnd, ?_⟩
          intro x hx
          rintro (rfl | hmem)
          · exact hne hx
          · exact hall x (Or.inr hx) hmem

theorem provLoop_ok_iff (ps : List Provider) :
    ∀ acc, (∃ ns, provLoop acc ps = .ok ns) ↔
      (∀ p ∈ ps, p.getName ≠ "") ∧ (ps.map Provider.getName).Nodup ∧
        ∀ p ∈ ps, p.getName ∉ acc := by
  induction ps with
  | nil => intro acc; simp [provLoop]
  | cons p ps ih =>
      intro acc
      by_cases h0 : p.getName = ""
      · simp [provLoop, h0]
      · by_cases hmem : p.getName ∈ acc
        · simp only [provLoop, if_neg h0, if_pos hmem]
          simp only [List.mem_cons]
          constructor
          · rintro ⟨ns, h⟩; cases h
          · rintro ⟨-, -, hacc⟩
            exact absurd (hacc p (Or.inl rfl)) (fun h => h hmem)
        · simp only [provLoop, if_neg h0, if_neg hmem, ih, List.map_cons,
            List.nodup_cons, List.mem_cons, List.mem_map]
          constructor
          · rintro ⟨hname, hnd, hacc⟩
            refine ⟨?_, ⟨?_, hnd⟩, ?_⟩
            · rintro q (rfl | hq)
              · exact h0
              · exact hname q hq
            · rintro ⟨q, hq, hqe⟩
              exact (hacc q hq) (by simp [hqe])
            · rintro q (rfl | hq)
              · exact hmem
              · exact fun hc => (hacc q hq) (by simp [hc])
          · rintro ⟨hname, ⟨hnodup, hnd⟩, hacc⟩
            refine ⟨fun q hq => hname q (Or.inr hq), hnd, ?_⟩
            intro q hq
            rintro (heq | hin)
            · exact hnodup ⟨q, hq, heq⟩
            · exact hacc q (Or.inr hq) hin

theorem provLoop_ok_mem (ps : List Provider) :
    ∀ acc ns, provLoop acc ps = .ok ns →
      ∀ x, x ∈ ns ↔ x ∈ acc ∨ x ∈ ps.map Provider.getName := by
  induction ps with
  | nil =>
      intro acc ns h x
      simp only [provLoop] at h
      cases h
      simp
  | cons p ps ih =>
      intro acc ns h x
      simp only [provLoop] at h
      by_cases h0 : p.getName = ""
      · rw [if_pos h0] at h; cases h
      · rw [if_neg h0] at h
        by_cases hmem : p.getName ∈ acc
        · rw [if_pos hmem] at h; cases h
        · rw [if_neg hmem] at h
          have := ih _ _ h x
          simp only [List.mem_cons, List.map_cons] at this ⊢
          rw [this]
          tauto

theorem provLoop_error_dup (ps : List Provider) :
    ∀ acc e, provLoop acc ps = .error e → (∀ p ∈ ps, p.getName ≠ "") →
      ∃ n, e = .dupProvider n := by
  induction ps with
  | nil => intro acc e h _; simp [provLoop] at h
  | cons p ps ih =>
      intro acc e h hname
      simp only [provLoop] at h
      rw [if_neg (hname p (by simp))] at h
      by_cases hmem : p.getName ∈ acc
      · rw [if_pos hmem] at h
        injection h with h'
        exact ⟨p.getName, h'.symm⟩
      · rw [if_neg hmem] at h
        exact ih _ _ h fun q hq => hname q (by simp [hq])

theorem firstNotIn_eq_none_iff (univ : List String) (l : List String) :
    firstNotIn univ l = none ↔ ∀ e ∈ l, e ∈ univ := by
  induction l with
  | nil => simp [firstNotIn]
  | cons e es ih =>
      by_cases he : e ∈ univ
      · simp [firstNotIn, he, ih]
      · simp [firstNotIn, he]

/-- Module with both a duplicate provider name (`a`) and a duplicate export
name (`e`): the claimed order would detect the provider duplicate first. -/
def m6 : Module :=
  { mkModule "m" "1.0.0" with
      providers := [.valueP "a" (.nat 1), .valueP "a" (.nat 2), .valueP "e" (.nat 3)],
      exports := ["e", "e"] }

/-- Claim C6 counterexample: on a module with both a duplicate provider
name `a` and a duplicate export name `e`, `Validate` reports the duplicate
EXPORT, not the duplicate provider the claimed order (providers before
exports) would give. -/
theorem c6_counterexample :
    m6.validate = .error (.dupExport "e") ∧
    m6.validate ≠ .error (.dupProvider "a") := by
  exact ⟨rfl, by decide⟩

/-- Claim C6 (amended): `Validate` is fail-fast in the order: empty name,
empty version, duplicate export names, provider problems (empty provider
name, then duplicate provider names), exports resolving to declared
providers, prefix well-formedness — i.e. with the duplicate-export check
BEFORE the duplicate-provider check — and it accepts exactly the modules
with none of these violations. -/
theorem c6_validate_order (m : Module) :
    (m.validate = .ok () ↔
      m.name ≠ "" ∧ m.version ≠ "" ∧ m.exports.Nodup ∧
      (∀ p ∈ m.providers, p.getName ≠ "") ∧
      (m.providers.map Provider.getName).Nodup ∧
      (∀ e ∈ m.exports, e ∈ m.providers.map Provider.getName) ∧
      (m.pfx = "" ∨ (m.pfx.startsWith "/" = true ∧ containsDotDot m.pfx = false)))
  ∧ (m.name = "" → m.validate = .error .emptyName)
  ∧ (m.name ≠ "" → m.version = "" → m.validate = .error .emptyVersion)
  ∧ (m.name ≠ "" → m.version ≠ "" → ¬ m.exports.Nodup →
      ∃ e, m.validate = .error (.dupExport e))
  ∧ (m.name ≠ "" → m.version ≠ "" → m.exports.Nodup →
      (∀ p ∈ m.providers, p.getName ≠ "") →
      ¬ (m.providers.map Provider.getName).Nodup →
      ∃ n, m.validate = .error (.dupProvider n))
  ∧ (m.name ≠ "" → m.version ≠ "" → m.exports.Nodup →
      (∀ p ∈ m.providers, p.getName ≠ "") →
      (m.providers.map Provider.getName).Nodup →
      (∃ e ∈ m.exports, e ∉ m.providers.map Provider.getName) →
      ∃ e, m.validate = .error (.exportNotFound e))
  ∧ (m.name ≠ "" → m.version ≠ "" → m.exports.Nodup →
      (∀ p ∈ m.providers, p.getName ≠ "") →
      (m.providers.map Provider.getName).Nodup →
      (∀ e ∈ m.exports, e ∈ m.providers.map Provider.getName) →
      m.validate = m.validatePfx) := by
  have hdup : findDupLoop [] m.exports = none ↔ m.exports.Nodup := by
    simp [findDupLoop_eq_none_iff]
  have hprov := provLoop_ok_iff m.providers []
  simp only [List.not_mem_nil, not_false_iff, imp_true_iff, and_true] at hprov
  refine ⟨?_, ?_, ?_, ?_, ?_, ?_, ?_⟩
  · constructor
    · intro h
      by_cases hn : m.name = ""
      · simp [Module.validate, hn] at h
      by_cases hv : m.version = ""
      · simp [Module.validate, hn, hv] at h
      rcases hfd : findDupLoop [] m.exports with _ | e
      · rcases hpl : provLoop [] m.providers with e | ns
        · simp [Module.validate, hn, hv, hfd, hpl] at h
        · rcases hfn : firstNotIn ns m.exports with _ | e
          · simp only [Module.validate, if_neg hn, if_neg hv, hfd, hpl, hfn] at h
            have hok := hprov.mp ⟨ns, hpl⟩
            have hmem := provLoop_ok_mem m.providers [] ns hpl
            refine ⟨hn, hv, hdup.mp hfd, hok.1, hok.2, ?_, ?_⟩
            · intro e he
              have he2 := (firstNotIn_eq_none_iff ns m.exports).mp hfn e he
              have := (hmem e).mp he2
              simpa using this
            · by_cases hp : m.pfx = ""
              · exact Or.inl hp
              · cases hs : m.pfx.startsWith "/" with
                | false => simp [Module.validatePfx, hp, hs] at h
                | true =>
                    cases hdd : containsDotDot m.pfx with
                    | true => simp [Module.validatePfx, hp, hs, hdd] at h
                    | false => exact Or.inr ⟨rfl, rfl⟩
          · simp [Module.validate, hn, hv, hfd, hpl, hfn] at h
      · simp [Module.validate, hn, hv, hfd] at h
    · rintro ⟨hn, hv, hnd, hname, hpnd, hexp, hpfx⟩
      have hfd : findDupLoop [] m.exports = none := hdup.mpr hnd
      obtain ⟨ns, hpl⟩ := hprov.mpr ⟨hname, hpnd⟩
      have hmem := provLoop_ok_mem m.providers [] ns hpl
      have hfn : firstNotIn ns m.exports = none := by
        rw [firstNotIn_eq_none_iff]
        intro e he
        exact (hmem e).mpr (Or.inr (hexp e he))
      simp only [Module.validate, if_neg hn, if_neg hv, hfd, hpl, hfn]
      rcases hpfx with hp | ⟨hs, hdd⟩
      · simp [Module.validatePfx, hp]
      · simp [Module.validatePfx, hs, hdd]
  · intro hn; simp [Module.validate, hn]
  · intro hn hv; simp [Module.validate, hn, hv]
  · intro hn hv hnd
    rcases hfd : findDupLoop [] m.exports with _ | e
    · exact absurd (hdup.mp hfd) hnd
    · exact ⟨e, by simp [Module.validate, hn, hv, hfd]⟩
  · intro hn hv hnd hname hpnd
    rcases hpl : provLoop [] m.providers with e | ns
    · obtain ⟨n, rfl⟩ := provLoop_error_dup m.providers [] e hpl hname
      exact ⟨n, by simp [Module.validate, hn, hv, hdup.mpr hnd, hpl]⟩
    · exact absurd (hprov.mp ⟨ns, hpl⟩).2 hpnd
  · intro hn hv hnd hname hpnd hexp
    have hfd : findDupLoop [] m.exports = none := hdup.mpr hnd
    obtain ⟨ns, hpl⟩ := hprov.mpr ⟨hname, hpnd⟩
    have hmem := provLoop_ok_mem m.providers [] ns hpl
    rcases hfn : firstNotIn ns m.exports with _ | e
    · exfalso
      obtain ⟨e, he, hne⟩ := hexp
      have := (firstNotIn_eq_none_iff ns m.exports).mp hfn e he
      exact hne (((hmem e).mp this).resolve_left (by simp))
    · exact ⟨e, by simp [Module.validate, hn, hv, hfd, hpl, hfn]⟩
  · intro hn hv hnd hname hpnd hexp
    have hfd : findDupLoop [] m.exports = none := hdup.mpr hnd
    obtain ⟨ns, hpl⟩ := hprov.mpr ⟨hname, hpnd⟩
    have hmem := provLoop_ok_mem m.providers [] ns hpl
    have hfn : firstNotIn ns m.exports = none := by
      rw [firstNotIn_eq_none_iff]
      intro e he
      exact (hmem e).mpr (Or.inr (hexp e he))
    simp [Module.validate, hn, hv, hfd, hpl, hfn]

/-- Request-container resolution with a decorated value present returns it
immediately and leaves the world untouched. -/
theorem resolve_request_decorated (w : World) (cid : CId) (c : Container)
    (name : String) (v : Value) (ctx : Ctx)
    (hc : w.containers[cid]? = some c) (hk : c.kind = .requestK)
    (hrd : c.requestData.lookup name = some v) :
    w.resolve cid name ctx = (.ok v, w) := by
  simp only [World.resolve, hc, hk, algoOfKind, resolveGo, hrd]

/-- Request-container resolution that misses the decorated values and reply
helpers but hits the local services runs the request lifetime switch. -/
theorem resolve_request_local (w : World) (cid : CId) (c : Container)
    (name : String) (svc : ServiceDefinition) (ctx : Ctx)
    (hc : w.containers[cid]? = some c) (hk : c.kind = .requestK)
    (hrd : c.requestData.lookup name = none)
    (hrh : c.replyHelpers.lookup name = none)
    (hs : c.services.lookup name = some svc) :
    w.resolve cid name ctx = runLifetimeRequest w name svc ctx := by
  simp only [World.resolve, hc, hk, algoOfKind, resolveGo, hrd, hrh, hs]

/-- A world containing a root container with service `n` already bound. -/
def w8 : World :=
  ⟨[⟨.base, [("n", ⟨.valueP "n" (.nat 1), none⟩)], none, [], [], []⟩], 0, .disabled, []⟩

/-- Claim C8: registering a name already present in the same container is an
already-registered error leaving the world unchanged, while registering the
same name in a freshly created child scope succeeds and shadows the
ancestor's registration when resolving from the child. -/
theorem c8_duplicate_registration_shadowing (w : World) (cid : CId) (c : Container)
    (p : Provider) (n : String) (v : Value) (ctx : Ctx)
    (hc : w.containers[cid]? = some c)
    (hn : p.getName = n)
    (hs : (c.services.lookup n).isSome = true) :
    registerProvider w cid p = (.error (.alreadyRegistered n), w)
  ∧ (registerProvider (w.createScope cid).1 (w.createScope cid).2 (.valueP n v)).1 = .ok ()
  ∧ ((registerProvider (w.createScope cid).1 (w.createScope cid).2
        (.valueP n v)).2.resolve (w.createScope cid).2 n ctx).1 = .ok v := by
  have hchild : (w.createScope cid).1.containers[(w.createScope cid).2]? =
      some ⟨.base, [], some cid, [], [], []⟩ := by
    simp [World.createScope, List.getElem?_concat_length]
  have hreg : registerProvider (w.createScope cid).1 (w.createScope cid).2 (.valueP n v) =
      (.ok (), (w.createScope cid).1.setC (w.createScope cid).2
        ⟨.base, [(n, ⟨.valueP n v, none⟩)], some cid, [], [], []⟩) := by
    simp [registerProvider, hchild, Provider.getName, List.lookup]
  refine ⟨?_, ?_, ?_⟩
  · simp [registerProvider, hc, hn, hs]
  · rw [hreg]
  · rw [hreg]
    have hlen : (w.createScope cid).2 < (w.createScope cid).1.containers.length := by
      simp [World.createScope]
    have hc' : ((w.createScope cid).1.setC (w.createScope cid).2
        ⟨.base, [(n, ⟨.valueP n v, none⟩)], some cid, [], [], []⟩).containers[(w.createScope cid).2]? =
        some ⟨.base, [(n, ⟨.valueP n v, none⟩)], some cid, [], [], []⟩ := by
      simp only [World.setC]
      exact List.getElem?_set_eq_of_lt _ hlen
    rw [resolve_local_hit _ _ _ n ⟨.valueP n v, none⟩ ctx hc'
      (lookup_cons_eq _ _ _ rfl) (Or.inl rfl)]
    simp [runLifetimeCaching, Provider.getLifetime, Provider.run]

/-- Claim C8 witness: the duplicate error and the child shadowing on a
concrete one-container world. -/
theorem c8_witness :
    registerProvider w8 0 (.valueP "n" (.nat 2)) = (.error (.alreadyRegistered "n"), w8)
  ∧ (registerProvider (w8.createScope 0).1 (w8.createScope 0).2 (.valueP "n" (.nat 2))).1 = .ok ()
  ∧ ((registerProvider (w8.createScope 0).1 (w8.createScope 0).2
        (.valueP "n" (.nat 2))).2.resolve (w8.createScope 0).2 "n" ctxBackground).1 = .ok (.nat 2) :=
  c8_duplicate_registration_shadowing w8 0 _ _ "n" (.nat 2) ctxBackground rfl rfl rfl

/-- A module container with two request scopes created from it. -/
def w9 : World :=
  ⟨[⟨.moduleK (mkModule "M" "1.0.0"), [], none, [], [], []⟩,
    ⟨.requestK, [], some 0, [], [], []⟩,
    ⟨.requestK, [], some 0, [], [], []⟩], 0, .disabled, []⟩

/-- One `DecorateRequest` step as a container update. -/
theorem decorateRequest_eq (w : World) (cid : CId) (c : Container) (k : String)
    (v : Value) (hc : w.containers[cid]? = some c) :
    decorateRequest w cid k v =
      w.setC cid { c with requestData := assocSet c.requestData k v } := by
  simp [decorateRequest, hc]

/-- Claim C9: two request containers over the same module container, each
decorating the same key with different values, each resolve only their own
decoration; the decorated value is returned immediately with the world
untouched (no provider lookup, no lifetime logic, regardless of what is in
the services maps). -/
theorem c9_request_scope_isolation (w : World) (i1 i2 : CId) (c1 c2 : Container)
    (k : String) (v1 v2 : Value) (ctx : Ctx)
    (h12 : i1 ≠ i2)
    (hc1 : w.containers[i1]? = some c1) (hk1 : c1.kind = .requestK)
    (hc2 : w.containers[i2]? = some c2) (hk2 : c2.kind = .requestK) :
    ((decorateRequest (decorateRequest w i1 k v1) i2 k v2).resolve i1 k ctx) =
      (.ok v1, decorateRequest (decorateRequest w i1 k v1) i2 k v2)
  ∧ ((decorateRequest (decorateRequest w i1 k v1) i2 k v2).resolve i2 k ctx) =
      (.ok v2, decorateRequest (decorateRequest w i1 k v1) i2 k v2) := by
  have hl1 : i1 < w.containers.length := (List.getElem?_eq_some.mp hc1).1
  have hw1 := decorateRequest_eq w i1 c1 k v1 hc1
  have hc2' : (decorateRequest w i1 k v1).containers[i2]? = some c2 := by
    rw [hw1]
    simp only [World.setC]
    rw [List.getElem?_set_ne h12]
    exact hc2
  have hw2 := decorateRequest_eq (decorateRequest w i1 k v1) i2 c2 k v2 hc2'
  have hl2 : i2 < (decorateRequest w i1 k v1).containers.length := by
    rw [hw1]
    simpa [World.setC] using (List.getElem?_eq_some.mp hc2).1
  have hg1 : (decorateRequest (decorateRequest w i1 k v1) i2 k v2).containers[i1]? =
      some { c1 with requestData := assocSet c1.requestData k v1 } := by
    rw [hw2, hw1]
    simp only [World.setC]
    rw [List.getElem?_set_ne (fun h => h12 h.symm)]
    exact List.getElem?_set_eq_of_lt _ hl1
  have hg2 : (decorateRequest (decorateRequest w i1 k v1) i2 k v2).containers[i2]? =
      some { c2 with requestData := assocSet c2.requestData k v2 } := by
    rw [hw2]
    simp only [World.setC]
    exact List.getElem?_set_eq_of_lt _ hl2
  constructor
  · exact resolve_request_decorated _ i1 _ k v1 ctx hg1 hk1 (lookup_assocSet _ k v1)
  · exact resolve_request_decorated _ i2 _ k v2 ctx hg2 hk2 (lookup_assocSet _ k v2)

/-- Claim C9 witness: the isolation scenario on the concrete world `w9`. -/
theorem c9_witness :
    ((decorateRequest (decorateRequest w9 1 "k" (.nat 11)) 2 "k" (.nat 22)).resolve
        1 "k" ctxBackground) =
      (.ok (.nat 11), decorateRequest (decorateRequest w9 1 "k" (.nat 11)) 2 "k" (.nat 22))
  ∧ ((decorateRequest (decorateRequest w9 1 "k" (.nat 11)) 2 "k" (.nat 22)).resolve
        2 "k" ctxBackground) =
      (.ok (.nat 22), decorateRequest (decorateRequest w9 1 "k" (.nat 11)) 2 "k" (.nat 22)) :=
  c9_request_scope_isolation w9 1 2 _ _ "k" (.nat 11) (.nat 22) ctxBackground
    (by decide) rfl rfl rfl rfl

/-- The fresh-allocation run of the request lifetime switch: Singleton,
Transient and Scoped all invoke the provider, with no caching. -/
theorem runLifetimeRequest_alloc (w : World) (name nm : String) (lt : Lifetime)
    (inst : Option Value) (ctx : Ctx)
    (hlt : lt = SingletonL ∨ lt = TransientL ∨ lt = ScopedL) :
    runLifetimeRequest w name ⟨.factoryP nm .alloc lt, inst⟩ ctx =
      (.ok (.fresh w.alloc), ⟨w.containers, w.alloc + 1, w.encMode, w.warnings⟩) := by
  rcases hlt with h | h | h <;>
    simp [runLifetimeRequest, Provider.getLifetime, Provider.run, FactoryM.run,
      SingletonL, TransientL, ScopedL, h]

/-- Claim C10: in a request container a directly registered allocating
provider is resolved anew on every call for each of the three lifetimes
(`lt < 3`), even with a cached instance recorded; in particular a Singleton
registered in a request container yields distinct instances on successive
resolutions. -/
theorem c10_request_singleton_not_cached (w : World) (cid : CId) (c : Container)
    (name nm : String) (lt : Lifetime) (inst : Option Value) (ctx : Ctx)
    (hc : w.containers[cid]? = some c) (hk : c.kind = .requestK)
    (hrd : c.requestData.lookup name = none)
    (hrh : c.replyHelpers.lookup name = none)
    (hs : c.services.lookup name = some ⟨.factoryP nm .alloc lt, inst⟩)
    (hlt : lt = SingletonL ∨ lt = TransientL ∨ lt = ScopedL) :
    w.resolve cid name ctx =
      (.ok (.fresh w.alloc), ⟨w.containers, w.alloc + 1, w.encMode, w.warnings⟩)
  ∧ ((w.resolve cid name ctx).2.resolve cid name ctx).1 = .ok (.fresh (w.alloc + 1))
  ∧ Value.fresh w.alloc ≠ Value.fresh (w.alloc + 1) := by
  have key : ∀ w0 : World, w0.containers = w.containers →
      w0.resolve cid name ctx =
        (.ok (.fresh w0.alloc), ⟨w0.containers, w0.alloc + 1, w0.encMode, w0.warnings⟩) := by
    intro w0 h0
    rw [resolve_request_local w0 cid c name _ ctx (by rw [h0]; exact hc) hk hrd hrh hs]
    exact runLifetimeRequest_alloc w0 name nm lt inst ctx hlt
  have h1 := key w rfl
  refine ⟨h1, ?_, by simp⟩
  rw [h1]
  rw [key ⟨w.containers, w.alloc + 1, w.encMode, w.warnings⟩ rfl]

/-- Request container over a root, with a Singleton allocating provider
registered directly in the request container. -/
def w5 : World :=
  ⟨[⟨.base, [], none, [], [], []⟩,
    ⟨.requestK, [("s", ⟨.factoryP "s" .alloc SingletonL, none⟩)], some 0, [], [], []⟩],
   0, .disabled, []⟩

/-- Claim C10 witness: the concrete request container resolves its Singleton
twice to two distinct fresh instances. -/
theorem c10_witness :
    w5.resolve 1 "s" ctxBackground =
      (.ok (.fresh 0), ⟨w5.containers, 1, w5.encMode, w5.warnings⟩)
  ∧ ((w5.resolve 1 "s" ctxBackground).2.resolve 1 "s" ctxBackground).1 = .ok (.fresh 1)
  ∧ Value.fresh 0 ≠ Value.fresh 1 :=
  c10_request_singleton_not_cached w5 1 _ "s" "s" SingletonL none ctxBackground
    rfl rfl rfl rfl rfl (by decide)

/-- Claim C5 counterexample: `w5`'s request container has the Singleton
name `s` registered in it, yet two resolutions of `s` from that same
container return two different (non-reference-equal) instances — request
containers never cache singletons, so the claim's "every container" fails. -/
theorem c5_counterexample :
    (w5.resolve 1 "s" ctxBackground).1 = .ok (.fresh 0)
  ∧ ((w5.resolve 1 "s" ctxBackground).2.resolve 1 "s" ctxBackground).1 = .ok (.fresh 1)
  ∧ Value.fresh 0 ≠ Value.fresh 1 := by
  exact ⟨rfl, rfl, by decide⟩

/-- The world state after a first singleton resolution cached instance `v`
in container `cid` (alloc counter advanced to `a'`). -/
def cacheSingleton (w : World) (cid : CId) (c : Container) (name : String)
    (v : Value) (a' : Nat) : World :=
  ⟨w.containers.set cid { c with services := svcCache c.services name v },
    a', w.encMode, w.warnings⟩

/-- The world state after one plain provider invocation (fresh allocation). -/
def bumpAlloc (w : World) : World :=
  ⟨w.containers, w.alloc + 1, w.encMode, w.warnings⟩

/-- Claim C5 (amended): in a plain `diContainer` or a `ModuleContainer`
(the containers that run the caching lifetime switch; request containers
are excluded, see the counterexample): a Singleton first resolution caches
and returns the built instance and a second resolution returns the
identical cached instance with no further effect; a cached Singleton hit
returns the cached instance unchanged; and a Transient allocating provider
is invoked on every resolution, yielding distinct instances. -/
theorem c5_singleton_idempotent_transient_fresh (w : World) (cid : CId)
    (c : Container) (name nm : String) (p : Provider) (v : Value) (a' : Nat)
    (inst : Option Value) (ctx : Ctx)
    (hc : w.containers[cid]? = some c)
    (hkd : c.kind = .base ∨ ∃ m, c.kind = .moduleK m ∧
        getDecoratorF w (w.containers.length + 1) cid name = none) :
    (c.services.lookup name = some ⟨p, none⟩ → p.getLifetime = SingletonL →
      p.run ctx w.alloc = (.ok v, a') →
      w.resolve cid name ctx = (.ok v, cacheSingleton w cid c name v a')
      ∧ (cacheSingleton w cid c name v a').resolve cid name ctx =
          (.ok v, cacheSingleton w cid c name v a'))
  ∧ (c.services.lookup name = some ⟨p, some v⟩ → p.getLifetime = SingletonL →
      w.resolve cid name ctx = (.ok v, w))
  ∧ (c.services.lookup name = some ⟨.factoryP nm .alloc TransientL, inst⟩ →
      w.resolve cid name ctx = (.ok (.fresh w.alloc), bumpAlloc w)
      ∧ ((bumpAlloc w).resolve cid name ctx).1 = .ok (.fresh (w.alloc + 1))
      ∧ Value.fresh w.alloc ≠ Value.fresh (w.alloc + 1)) := by
  have hlen : cid < w.containers.length := (List.getElem?_eq_some.mp hc).1
  -- the cached world re-reads
  refine ⟨?_, ?_, ?_⟩
  · intro hs hlt hrun
    have h1 : w.resolve cid name ctx = (.ok v, cacheSingleton w cid c name v a') := by
      rw [resolve_local_hit w cid c name _ ctx hc hs hkd]
      simp [runLifetimeCaching, hlt, hrun, cacheSingleton]
    refine ⟨h1, ?_⟩
    have hc' : (cacheSingleton w cid c name v a').containers[cid]? =
        some { c with services := svcCache c.services name v } := by
      simp only [cacheSingleton]
      exact List.getElem?_set_eq_of_lt _ hlen
    have hs' : ({ c with services := svcCache c.services name v } :
        Container).services.lookup name = some ⟨p, some v⟩ := by
      simpa using lookup_svcCache c.services name v ⟨p, none⟩ hs
    have hkd' : ({ c with services := svcCache c.services name v } : Container).kind = .base
        ∨ ∃ m, ({ c with services := svcCache c.services name v } : Container).kind = .moduleK m ∧
          getDecoratorF (cacheSingleton w cid c name v a')
            ((cacheSingleton w cid c name v a').containers.length + 1) cid name = none := by
      rcases hkd with hk | ⟨m, hk, hdec⟩
      · exact Or.inl hk
      · refine Or.inr ⟨m, hk, ?_⟩
        have hview : decoView (cacheSingleton w cid c name v a') = decoView w := by
          have := decoView_setServices w cid c (svcCache c.services name v) hc
          simpa [World.setC, cacheSingleton, decoView] using this
        have hlencg : (cacheSingleton w cid c name v a').containers.length =
            w.containers.length := by
          simp [cacheSingleton]
        rw [hlencg]
        rw [getDecoratorF_congr _ w hview]
        exact hdec
    rw [resolve_local_hit _ cid _ name _ ctx hc' hs' hkd']
    simp [runLifetimeCaching, hlt]
  · intro hs hlt
    rw [resolve_local_hit w cid c name _ ctx hc hs hkd]
    simp [runLifetimeCaching, hlt]
  · intro hs
    have key : ∀ w0 : World, w0.containers = w.containers → w0.encMode = w.encMode →
        w0.resolve cid name ctx = (.ok (.fresh w0.alloc), bumpAlloc w0) := by
      intro w0 h0 hm
      have hc0 : w0.containers[cid]? = some c := by rw [h0]; exact hc
      have hkd0 : c.kind = .base ∨ ∃ m, c.kind = .moduleK m ∧
          getDecoratorF w0 (w0.containers.length + 1) cid name = none := by
        rcases hkd with hk | ⟨m, hk, hdec⟩
        · exact Or.inl hk
        · refine Or.inr ⟨m, hk, ?_⟩
          have hview : decoView w0 = decoView w := by simp [decoView, h0]
          rw [h0, getDecoratorF_congr _ w hview]
          exact hdec
      rw [resolve_local_hit w0 cid c name _ ctx hc0 hs hkd0]
      simp [runLifetimeCaching, Provider.getLifetime, Provider.run, FactoryM.run,
        SingletonL, TransientL, bumpAlloc]
    have h1 := key w rfl rfl
    refine ⟨h1, ?_, by simp⟩
    rw [key (bumpAlloc w) rfl rfl]
    simp [bumpAlloc]

/-- Base-container world with an uncached Singleton allocating provider. -/
def w5b : World :=
  ⟨[⟨.base, [("s", ⟨.factoryP "s" .alloc SingletonL, none⟩)], none, [], [], []⟩],
   0, .disabled, []⟩

/-- Module-container world with a cached Singleton instance. -/
def w5m : World :=
  ⟨[⟨.base, [], none, [], [], []⟩,
    ⟨.moduleK (mkModule "M" "1.0.0"),
      [("s", ⟨.valueP "s" (.nat 9), some (.nat 9)⟩),
       ("t", ⟨.factoryP "t" .alloc TransientL, none⟩)], some 0, [], [], []⟩],
   0, .disabled, []⟩

/-- Claim C5 witness: the three amended behaviours at concrete containers —
a base container caching its Singleton and returning the identical instance
twice, a module container returning its cached Singleton unchanged, and a
module container's Transient provider yielding two distinct instances. -/
theorem c5_witness :
    (w5b.resolve 0 "s" ctxBackground =
        (.ok (.fresh 0), cacheSingleton w5b 0 w5b.containers[0] "s" (.fresh 0) 1)
      ∧ (cacheSingleton w5b 0 w5b.containers[0] "s" (.fresh 0) 1).resolve 0 "s" ctxBackground =
        (.ok (.fresh 0), cacheSingleton w5b 0 w5b.containers[0] "s" (.fresh 0) 1))
  ∧ (w5m.resolve 1 "s" ctxBackground = (.ok (.nat 9), w5m))
  ∧ (w5m.resolve 1 "t" ctxBackground = (.ok (.fresh 0), bumpAlloc w5m)
      ∧ ((bumpAlloc w5m).resolve 1 "t" ctxBackground).1 = .ok (.fresh 1)
      ∧ Value.fresh 0 ≠ Value.fresh 1) := by
  refine ⟨?_, ?_, ?_⟩
  · exact (c5_singleton_idempotent_transient_fresh w5b 0 _ "s" "s"
      (.factoryP "s" .alloc SingletonL) (.fresh 0) 1 none ctxBackground rfl
      (Or.inl rfl)).1 rfl rfl rfl
  · exact (c5_singleton_idempotent_transient_fresh w5m 1 _ "s" "s"
      (.valueP "s" (.nat 9)) (.nat 9) 0 none ctxBackground rfl
      (Or.inr ⟨mkModule "M" "1.0.0", rfl, rfl⟩)).2.1 rfl rfl
  · exact (c5_singleton_idempotent_transient_fresh w5m 1 _ "t" "t"
      (.valueP "s" (.nat 9)) (.nat 9) 0 none ctxBackground rfl
      (Or.inr ⟨mkModule "M" "1.0.0", rfl, rfl⟩)).2.2 rfl

/-- A fresh plugin manager. -/
def pm0 : PluginManager := mkPluginManager .disabled

/-- Plugin whose module imports the unregistered module `ghost`. -/
def pl3 : Plugin :=
  ⟨"p", "1.0.0", some { mkModule "m" "1.0.0" with imports := ["ghost"] }, [], true⟩

/-- Claim C3 counterexample: registering a plugin whose module imports an
unregistered module returns a validation error, yet the module is left in
the manager's module graph — the module graph is NOT unchanged, so the
registration is not atomic. -/
theorem c3_counterexample :
    (registerPlugin pm0 (some pl3)).1 =
      .error (.importValidation (.missingImport "m" "ghost"))
  ∧ (registerPlugin pm0 (some pl3)).2.graph.modules.map Module.name = ["m"]
  ∧ pm0.graph.modules.map Module.name = [] := by
  exact ⟨rfl, rfl, rfl⟩

/-- Claim C3 (amended): `RegisterPlugin` is atomic for the failures detected
before `AddModule` runs — nil plugin, duplicate plugin name, module
(export) validation — leaving the manager unchanged; but a module failing
its import validation has already been added to the graph, and when the
plugin's service registration fails the module stays in the graph and its
route-prefix stays recorded: those failures are not atomic. -/
theorem c3_registerPlugin_partial_atomicity (pm : PluginManager) (pl : Plugin)
    (e : ValidationError) (ge : GErr) (re : RErr) (g' : ModuleGraph) (w' : World) :
    (registerPlugin pm none = (.error .nilPlugin, pm))
  ∧ (pl.name ∈ pm.plugins → registerPlugin pm (some pl) = (.error .alreadyRegistered, pm))
  ∧ (pl.name ∉ pm.plugins → pl.moduleOf.validate = .error e →
      registerPlugin pm (some pl) = (.error (.exportValidation e), pm))
  ∧ (pl.name ∉ pm.plugins → pl.moduleOf.validate = .ok () →
      pm.graph.addModule (some pl.moduleOf) = (.ok (), g') →
      g'.validateImports pl.moduleOf = .error ge →
      registerPlugin pm (some pl) = (.error (.importValidation ge), { pm with graph := g' })
      ∧ pl.moduleOf ∈ g'.modules)
  ∧ (pl.name ∉ pm.plugins → pl.moduleOf.validate = .ok () →
      pm.graph.addModule (some pl.moduleOf) = (.ok (), g') →
      g'.validateImports pl.moduleOf = .ok () →
      pluginRegister pm.world pm.rootCid pl.regProviders pl.regOk = (.error re, w') →
      registerPlugin pm (some pl) = (.error .registrationFailed,
        { pm with
          graph := g', world := w',
          modulePrefixes := assocSet pm.modulePrefixes pl.moduleOf.name pl.moduleOf.getFullPfx })
      ∧ pl.moduleOf ∈ g'.modules
      ∧ (assocSet pm.modulePrefixes pl.moduleOf.name pl.moduleOf.getFullPfx).lookup
          pl.moduleOf.name = some pl.moduleOf.getFullPfx) := by
  have hmem : ∀ g2 : ModuleGraph, pm.graph.addModule (some pl.moduleOf) = (.ok (), g2) →
      pl.moduleOf ∈ g2.modules := by
    intro g2 hadd
    simp only [ModuleGraph.addModule] at hadd
    rcases hv : pl.moduleOf.validate with e | u
    · rw [hv] at hadd; cases hadd
    · rw [hv] at hadd
      by_cases hdup : (pm.graph.findModule pl.moduleOf.name).isSome
      · rw [if_pos hdup] at hadd; cases hadd
      · rw [if_neg hdup] at hadd
        injection hadd with h1 h2
        rw [← h2]
        simp
  refine ⟨rfl, ?_, ?_, ?_, ?_⟩
  · intro h
    simp [registerPlugin, h]
  · intro h hv
    simp [registerPlugin, h, hv]
  · intro h hv hadd him
    refine ⟨?_, hmem g' hadd⟩
    simp [registerPlugin, h, hv, hadd, him]
  · intro h hv hadd him hregf
    refine ⟨?_, hmem g' hadd, lookup_assocSet _ _ _⟩
    simp [registerPlugin, h, hv, hadd, him, hregf]

/-- Manager already holding module `m`, for the witness's duplicate cases. -/
def pmM : PluginManager :=
  { pm0 with
    plugins := ["q"],
    graph := ⟨[mkModule "m" "1.0.0"], [("m", [])]⟩ }

/-- Plugin whose `Register` call fails. -/
def plFail : Plugin := ⟨"r", "1.0.0", some (mkModule "r" "1.0.0"), [], false⟩

/-- Plugin with an invalid module (empty name). -/
def plBad : Plugin := ⟨"b", "1.0.0", some (mkModule "" "1.0.0"), [], true⟩

/-- Claim C3 witness: each branch of the amended atomicity statement at a
concrete manager and plugin. -/
theorem c3_witness :
    (registerPlugin pm0 none = (.error .nilPlugin, pm0))
  ∧ (registerPlugin { pm0 with plugins := ["p"] } (some pl3) =
      (.error .alreadyRegistered, { pm0 with plugins := ["p"] }))
  ∧ (registerPlugin pm0 (some plBad) =
      (.error (.exportValidation .emptyName), pm0))
  ∧ (registerPlugin pm0 (some pl3) =
      (.error (.importValidation (.missingImport "m" "ghost")),
        { pm0 with graph := ⟨[pl3.moduleOf], [("m", ["ghost"])]⟩ })
      ∧ pl3.moduleOf ∈ (⟨[pl3.moduleOf], [("m", ["ghost"])]⟩ : ModuleGraph).modules)
  ∧ (registerPlugin pm0 (some plFail) =
      (.error .registrationFailed,
        { pm0 with
          graph := ⟨[plFail.moduleOf], [("r", [])]⟩, world := pm0.world,
          modulePrefixes := assocSet pm0.modulePrefixes "r" "" })
      ∧ plFail.moduleOf ∈ (⟨[plFail.moduleOf], [("r", [])]⟩ : ModuleGraph).modules
      ∧ (assocSet pm0.modulePrefixes "r" "").lookup "r" = some "") := by
  refine ⟨?_, ?_, ?_, ?_, ?_⟩
  · exact (c3_registerPlugin_partial_atomicity pm0 pl3 .emptyName (.missingImport "m" "ghost")
      (.construction "register failed") pm0.graph pm0.world).1
  · exact (c3_registerPlugin_partial_atomicity { pm0 with plugins := ["p"] } pl3 .emptyName
      (.missingImport "m" "ghost") (.construction "register failed") pm0.graph
      pm0.world).2.1 (by decide)
  · exact (c3_registerPlugin_partial_atomicity pm0 plBad .emptyName
      (.missingImport "m" "ghost") (.construction "register failed") pm0.graph
      pm0.world).2.2.1 (by decide) rfl
  · exact (c3_registerPlugin_partial_atomicity pm0 pl3 .emptyName
      (.missingImport "m" "ghost") (.construction "register failed")
      ⟨[pl3.moduleOf], [("m", ["ghost"])]⟩ pm0.world).2.2.2.1
      (by decide) rfl rfl rfl
  · exact (c3_registerPlugin_partial_atomicity pm0 plFail .emptyName
      (.missingImport "m" "ghost") (.construction "register failed")
      ⟨[plFail.moduleOf], [("r", [])]⟩ pm0.world).2.2.2.2
      (by decide) rfl rfl rfl rfl

/-- Claim C6 witness: each branch of the amended fail-fast order at a
concrete module exhibiting exactly that first violation. -/
theorem c6_witness :
    (mkModule "" "1.0.0").validate = .error .emptyName
  ∧ (mkModule "m" "").validate = .error .emptyVersion
  ∧ (∃ e, ({ mkModule "m" "1.0.0" with exports := ["e", "e"] } : Module).validate =
      .error (.dupExport e))
  ∧ (∃ n, ({ mkModule "m" "1.0.0" with
      providers := [.valueP "a" (.nat 1), .valueP "a" (.nat 2)] } : Module).validate =
      .error (.dupProvider n))
  ∧ (∃ e, ({ mkModule "m" "1.0.0" with
      providers := [.valueP "y" (.nat 1)], exports := ["x"] } : Module).validate =
      .error (.exportNotFound e))
  ∧ (mkModule "m" "1.0.0").validate = (mkModule "m" "1.0.0").validatePfx := by
  refine ⟨?_, ?_, ?_, ?_, ?_, ?_⟩
  · exact (c6_validate_order (mkModule "" "1.0.0")).2.1 rfl
  · exact (c6_validate_order (mkModule "m" "")).2.2.1 (by decide) rfl
  · exact (c6_validate_order _).2.2.2.1 (by decide) (by decide) (by decide)
  · exact (c6_validate_order _).2.2.2.2.1 (by decide) (by decide) (by decide)
      (by decide) (by decide)
  · exact (c6_validate_order _).2.2.2.2.2.1 (by decide) (by decide) (by decide)
      (by decide) (by decide) (by decide)
  · exact (c6_validate_order _).2.2.2.2.2.2 (by decide) (by decide) (by decide)
      (by decide) (by decide) (by decide)

/-!  Claim C2: cycle detection in `TopologicalSort`. -/

/-- A name registered in the graph (Go `_, exists := g.modules[n]`). -/
abbrev ModuleGraph.reg (g : ModuleGraph) (n : String) : Prop :=
  (g.findModule n).isSome = true

/-- Edge test: `b` is among `a`'s recorded dependencies. -/
def edgeB (g : ModuleGraph) (a b : String) : Bool := (g.depsOf a).contains b

/-- A walk along import edges from `a` through the nodes of `l` to `b`. -/
def walkB (g : ModuleGraph) : String → List String → String → Bool
  | a, [], b => edgeB g a b
  | a, x :: xs, b => edgeB g a x && walkB g x xs b

/-- Graph well-formedness, as `AddModule` maintains it when every import is
registered: every edge key and every dependency is a registered module. -/
def WFB (g : ModuleGraph) : Bool :=
  g.edges.all fun nd => (g.findModule nd.1).isSome &&
    nd.2.all fun d => (g.findModule d).isSome

theorem wf_edge (g : ModuleGraph) (hwf : WFB g = true) (a b : String)
    (h : edgeB g a b = true) : g.reg a ∧ g.reg b := by
  unfold edgeB ModuleGraph.depsOf at h
  rcases hl : g.edges.lookup a with _ | ds
  · rw [hl] at h; simp at h
  · rw [hl] at h
    simp only [Option.getD_some] at h
    have hmem := mem_of_lookup _ _ _ hl
    have hall := (List.all_eq_true.mp hwf) _ hmem
    simp only [Bool.and_eq_true, List.all_eq_true] at hall
    exact ⟨hall.1, hall.2 b (by simpa using h)⟩

theorem reg_mem_names (g : ModuleGraph) (n : String) (h : g.reg n) : n ∈ g.names := by
  unfold ModuleGraph.reg ModuleGraph.findModule at h
  rcases hf : g.modules.find? (fun m => m.name = n) with _ | m
  · rw [hf] at h; simp at h
  · have hm := List.mem_of_find?_eq_some hf
    have hp := List.find?_some hf
    simp only [decide_eq_true_eq] at hp
    exact hp ▸ List.mem_map_of_mem Module.name hm

theorem mem_names_reg (g : ModuleGraph) (n : String) (h : n ∈ g.names) : g.reg n := by
  unfold ModuleGraph.names at h
  rcases List.mem_map.mp h with ⟨m, hm, rfl⟩
  unfold ModuleGraph.reg ModuleGraph.findModule
  rcases hf : g.modules.find? (fun x => x.name = m.name) with _ | m'
  · exfalso
    have := List.find?_eq_none.mp hf m hm
    simp at this
  · rw [hf]
    rfl

theorem mem_seedOrder_iff (g : ModuleGraph) (n : String) :
    n ∈ g.seedOrder ↔ n ∈ g.names := by
  simp only [ModuleGraph.seedOrder, List.mem_append, List.mem_filter]
  constructor
  · rintro (⟨h, -⟩ | ⟨h, -⟩) <;> exact h
  · intro h
    by_cases hd : (g.depsOf n).isEmpty
    · exact Or.inl ⟨h, by simp [hd]⟩
    · exact Or.inr ⟨h, by simp [hd]⟩

theorem indexOf_append_last (l : List String) (a : String) (h : a ∉ l) :
    (l ++ [a]).indexOf a = l.length := by
  induction l with
  | nil => simp
  | cons x xs ih =>
      simp only [List.mem_cons, not_or] at h
      rw [List.cons_append, List.indexOf_cons_ne _ (fun hc => h.1 hc.symm), ih h.2]
      rfl

theorem nodup_length_le (l l2 : List String) (h : l.Nodup)
    (hs : ∀ x ∈ l, x ∈ l2) : l.length ≤ l2.length := by
  classical
  calc l.length = l.toFinset.card := by rw [List.toFinset_card_of_nodup h]
  _ ≤ l2.toFinset.card := Finset.card_le_card (fun x hx => by
      rw [List.mem_toFinset] at *
      exact hs x hx)
  _ ≤ l2.length := l2.toFinset_card_le

/-- The DFS invariant: `visited` mirrors the post-order (the source appends
to both together), the post-order has no duplicates, and every listed
module's dependencies are listed strictly earlier. -/
def TSInv (g : ModuleGraph) (s : TSState) : Prop :=
  s.visited = s.postOrder.reverse ∧ s.postOrder.Nodup ∧
  ∀ m ∈ s.postOrder, ∀ d, edgeB g m d = true →
    d ∈ s.postOrder ∧ s.postOrder.indexOf d < s.postOrder.indexOf m

/-- Soundness of the DFS `visit` closure: under a well-formed graph, with a
duplicate-free stack of registered modules and enough fuel, a visit either
succeeds — preserving the invariant, marking the node visited, growing the
post-order only by nodes outside the stack — or fails with a
circular-dependency error naming a registered module. -/
theorem visit_main (g : ModuleGraph) (hwf : WFB g = true) :
    ∀ fuel stack name s, stack.Nodup → (∀ x ∈ stack, g.reg x) → g.reg name →
      g.modules.length + 1 ≤ fuel + stack.length → TSInv g s →
      (∃ s', visitNode g fuel stack name s = .ok s' ∧ TSInv g s' ∧
        name ∈ s'.visited ∧ (∀ x ∈ s.visited, x ∈ s'.visited) ∧
        ∃ t, s'.postOrder = s.postOrder ++ t ∧ ∀ x ∈ t, x ∉ stack)
      ∨ (∃ n, g.reg n ∧ visitNode g fuel stack name s = .error (.circular n)) := by
  intro fuel
  induction fuel with
  | zero =>
      intro stack name s hnd hreg hname hfuel _
      exfalso
      have hsub : ∀ x ∈ stack, x ∈ g.names := fun x hx => reg_mem_names g x (hreg x hx)
      have hlen : stack.length ≤ g.names.length := nodup_length_le _ _ hnd hsub
      have hnames : g.names.length = g.modules.length := by simp [ModuleGraph.names]
      omega
  | succ fuel ih =>
      intro stack name s hnd hreg hname hfuel hinv
      by_cases hstk : name ∈ stack
      · exact Or.inr ⟨name, hname, by simp [visitNode, hstk]⟩
      by_cases hvis : name ∈ s.visited
      · exact Or.inl ⟨s, by simp [visitNode, hstk, hvis], hinv, hvis, fun x hx => hx,
          [], by simp, by simp⟩
      have hnd' : (name :: stack).Nodup := List.nodup_cons.mpr ⟨hstk, hnd⟩
      have hreg' : ∀ x ∈ name :: stack, g.reg x := by
        intro x hx
        rcases List.mem_cons.mp hx with rfl | hx
        · exact hname
        · exact hreg x hx
      have hfuel' : g.modules.length + 1 ≤ fuel + (name :: stack).length := by
        simp only [List.length_cons]
        omega
      have fold_main : ∀ (ds : List String) (s₀ : TSState), (∀ d ∈ ds, edgeB g name d = true) → TSInv g s₀ →
          (∃ s', ds.foldlM (fun st d =>
              if (g.findModule d).isNone then Except.error (TErr.missingDep name d)
              else visitNode g fuel (name :: stack) d st) s₀ = .ok s' ∧ TSInv g s' ∧
            (∀ d ∈ ds, d ∈ s'.visited) ∧ (∀ x ∈ s₀.visited, x ∈ s'.visited) ∧
            ∃ t, s'.postOrder = s₀.postOrder ++ t ∧ ∀ x ∈ t, x ∉ name :: stack)
          ∨ (∃ n, g.reg n ∧ ds.foldlM (fun st d =>
              if (g.findModule d).isNone then Except.error (TErr.missingDep name d)
              else visitNode g fuel (name :: stack) d st) s₀ = .error (.circular n)) := by
        intro ds
        induction ds with
        | nil =>
            intro s₀ _ hinv₀
            exact Or.inl ⟨s₀, rfl, hinv₀, by simp, fun x hx => hx, [], by simp, by simp⟩
        | cons d ds ihd =>
            intro s₀ hds hinv₀
            have hedge := hds d (by simp)
            have hregd := (wf_edge g hwf name d hedge).2
            have hfm : (g.findModule d).isNone = false := by
              rcases hf : g.findModule d with _ | m
              · rw [ModuleGraph.reg, hf] at hregd
                simp at hregd
              · rfl
            have hstep : ∀ st : TSState, (if (g.findModule d).isNone
                then Except.error (TErr.missingDep name d)
                else visitNode g fuel (name :: stack) d st) =
                visitNode g fuel (name :: stack) d st := by
              intro st
              rw [hfm]
              simp
            rcases ih (name :: stack) d s₀ hnd' hreg' hregd hfuel' hinv₀ with
              ⟨s₁, hok₁, hinv₁, hdv₁, hmono₁, t₁, hpost₁, ht₁⟩ | ⟨n, hregn, herr₁⟩
            · rcases ihd s₁ (fun d' hd' => hds d' (List.mem_cons_of_mem _ hd')) hinv₁ with
                ⟨s₂, hok₂, hinv₂, hdv₂, hmono₂, t₂, hpost₂, ht₂⟩ | ⟨n, hregn, herr₂⟩
              · left
                refine ⟨s₂, ?_, hinv₂, ?_, ?_, t₁ ++ t₂, ?_, ?_⟩
                · rw [List.foldlM_cons, hstep, hok₁]
                  exact hok₂
                · intro d' hd'
                  rcases List.mem_cons.mp hd' with rfl | hd'
                  · exact hmono₂ d' hdv₁
                  · exact hdv₂ d' hd'
                · intro x hx
                  exact hmono₂ x (hmono₁ x hx)
                · rw [hpost₂, hpost₁, List.append_assoc]
                · intro x hx
                  rcases List.mem_append.mp hx with hx | hx
                  · exact ht₁ x hx
                  · exact ht₂ x hx
              · right
                exact ⟨n, hregn, by rw [List.foldlM_cons, hstep, hok₁]; exact herr₂⟩
            · right
              exact ⟨n, hregn, by rw [List.foldlM_cons, hstep, herr₁]; rfl⟩
      rcases fold_main (g.depsOf name) s
          (fun d hd => by simpa [edgeB] using hd) hinv with
        ⟨s', hok, hinv', hdeps, hmono, t, hpost, ht⟩ | ⟨n, hregn, herr⟩
      · left
        have hnp : name ∉ s'.postOrder := by
          intro hmem
          rw [hpost] at hmem
          rcases List.mem_append.mp hmem with hmem | hmem
          · apply hvis
            rw [hinv.1]
            simpa using hmem
          · exact (ht name hmem) (by simp)
        refine ⟨⟨name :: s'.visited, s'.postOrder ++ [name]⟩,
          by rw [visitNode, if_neg hstk, if_neg hvis, hok], ?_, by simp, ?_, t ++ [name], ?_, ?_⟩
        · refine ⟨?_, ?_, ?_⟩
          · rw [hinv'.1]
            simp
          · exact hinv'.2.1.append (List.nodup_singleton name) (fun x hx hx' => by
              simp only [List.mem_singleton] at hx'
              subst hx'
              exact hnp hx)
          · intro m hm d hd
            rcases List.mem_append.mp hm with hm | hm
            · have hold := hinv'.2.2 m hm d hd
              refine ⟨List.mem_append_left _ hold.1, ?_⟩
              rw [List.indexOf_append_of_mem hold.1, List.indexOf_append_of_mem hm]
              exact hold.2
            · simp only [List.mem_singleton] at hm
              subst hm
              have hdmem : d ∈ g.depsOf m := by simpa [edgeB] using hd
              have hdv : d ∈ s'.visited := hdeps d hdmem
              have hdp : d ∈ s'.postOrder := by
                rw [hinv'.1] at hdv
                simpa using hdv
              refine ⟨List.mem_append_left _ hdp, ?_⟩
              rw [List.indexOf_append_of_mem hdp, indexOf_append_last _ _ hnp]
              exact List.indexOf_lt_length.mpr hdp
        · intro x hx
          exact List.mem_cons_of_mem _ (hmono x hx)
        · rw [hpost, List.append_assoc]
        · intro x hx
          rcases List.mem_append.mp hx with hx | hx
          · exact fun hc => (ht x hx) (List.mem_cons_of_mem _ hc)
          · simp only [List.mem_singleton] at hx
            subst hx
            exact hstk
      · right
        exact ⟨n, hregn, by rw [visitNode, if_neg hstk, if_neg hvis, herr]⟩

/-- Soundness of the top-level loop: with every listed seed registered it
either succeeds with every seed visited or reports a circular dependency. -/
theorem visitAll_main (g : ModuleGraph) (hwf : WFB g = true) :
    ∀ ns s, (∀ n ∈ ns, g.reg n) → TSInv g s →
      (∃ s', visitAll g (g.modules.length + 1) ns s = .ok s' ∧ TSInv g s' ∧
        (∀ n ∈ ns, n ∈ s'.visited) ∧ (∀ x ∈ s.visited, x ∈ s'.visited))
    ∨ (∃ n, g.reg n ∧ visitAll g (g.modules.length + 1) ns s = .error (.circular n)) := by
  intro ns
  induction ns with
  | nil =>
      intro s _ hinv
      exact Or.inl ⟨s, rfl, hinv, by simp, fun x hx => hx⟩
  | cons n ns ihn =>
      intro s hreg hinv
      by_cases hv : n ∈ s.visited
      · rcases ihn s (fun x hx => hreg x (List.mem_cons_of_mem _ hx)) hinv with
          ⟨s', hok, hinv', hall, hmono⟩ | ⟨m, hregm, herr⟩
        · left
          refine ⟨s', ?_, hinv', ?_, hmono⟩
          · simp only [visitAll, if_pos hv]
            exact hok
          · intro x hx
            rcases List.mem_cons.mp hx with rfl | hx
            · exact hmono x hv
            · exact hall x hx
        · exact Or.inr ⟨m, hregm, by simp only [visitAll, if_pos hv]; exact herr⟩
      · rcases visit_main g hwf (g.modules.length + 1) [] n s (by simp) (by simp)
          (hreg n (by simp)) (by simp) hinv with
          ⟨s₁, hok₁, hinv₁, hnv, hmono₁, t, hpost, ht⟩ | ⟨m, hregm, herr⟩
        · rcases ihn s₁ (fun x hx => hreg x (List.mem_cons_of_mem _ hx)) hinv₁ with
            ⟨s₂, hok₂, hinv₂, hall₂, hmono₂⟩ | ⟨m, hregm, herr₂⟩
          · left
            refine ⟨s₂, ?_, hinv₂, ?_, fun x hx => hmono₂ x (hmono₁ x hx)⟩
            · simp only [visitAll, if_neg hv, hok₁]
              exact hok₂
            · intro x hx
              rcases List.mem_cons.mp hx with rfl | hx
              · exact hmono₂ x hnv
              · exact hall₂ x hx
          · exact Or.inr ⟨m, hregm, by simp only [visitAll, if_neg hv, hok₁]; exact herr₂⟩
        · exact Or.inr ⟨m, hregm, by simp only [visitAll, if_neg hv, herr]⟩

/-- Strictly decreasing post-order index along any walk of the graph. -/
theorem walk_lt (g : ModuleGraph) (hwf : WFB g = true) (po : List String)
    (hinv : ∀ m ∈ po, ∀ d, edgeB g m d = true → d ∈ po ∧ po.indexOf d < po.indexOf m)
    (hall : ∀ n, g.reg n → n ∈ po) :
    ∀ l a b, walkB g a l b = true → po.indexOf b < po.indexOf a := by
  intro l
  induction l with
  | nil =>
      intro a b h
      have he : edgeB g a b = true := by simpa [walkB] using h
      have ha := (wf_edge g hwf a b he).1
      exact (hinv a (hall a ha) b he).2
  | cons x xs ihw =>
      intro a b h
      simp only [walkB, Bool.and_eq_true] at h
      have ha := (wf_edge g hwf a x h.1).1
      have h1 := (hinv a (hall a ha) x h.1).2
      have h2 := ihw x b h.2
      omega

/-- Claim C2: on a well-formed registered module set whose import relation
has a cycle, `TopologicalSort` returns a circular-dependency error carrying
a registered module name (the module at which the traversal re-entered its
own stack) and hence no ordering; `GetInitializationOrder` propagates the
same error, so no initialization step is reached. -/
theorem c2_cycle_detected (g : ModuleGraph) (pm : PluginManager)
    (hwf : WFB g = true)
    (hcyc : ∃ a l, walkB g a l a = true)
    (hpm : pm.graph = g) :
    ∃ n, g.reg n ∧ g.topologicalSort = .error (.circular n)
      ∧ pm.getInitializationOrder = .error (.circular n) := by
  have hinv0 : TSInv g ⟨[], []⟩ := ⟨rfl, List.nodup_nil, by simp⟩
  have hseed : ∀ n ∈ g.seedOrder, g.reg n := fun n hn =>
    mem_names_reg g n ((mem_seedOrder_iff g n).mp hn)
  rcases visitAll_main g hwf g.seedOrder ⟨[], []⟩ hseed hinv0 with
    ⟨s', hok, hinv', hall, -⟩ | ⟨n, hregn, herr⟩
  · exfalso
    obtain ⟨a, l, hw⟩ := hcyc
    have hallpo : ∀ n, g.reg n → n ∈ s'.postOrder := by
      intro n hr
      have hv := hall n ((mem_seedOrder_iff g n).mpr (reg_mem_names g n hr))
      rw [hinv'.1] at hv
      simpa using hv
    have := walk_lt g hwf s'.postOrder hinv'.2.2 hallpo l a a hw
    omega
  · refine ⟨n, hregn, ?_, ?_⟩
    · simp only [ModuleGraph.topologicalSort, herr]
    · simp only [PluginManager.getInitializationOrder, hpm,
        ModuleGraph.topologicalSort, herr]

/-- Claim C2 witness: the concrete cycle a→b→c→a is reported as a circular
dependency both by the sort and by the initialization-order query. -/
theorem c2_witness :
    ∃ n, gCyc.reg n ∧ gCyc.topologicalSort = .error (.circular n)
      ∧ ({ pm0 with graph := gCyc } : PluginManager).getInitializationOrder =
        .error (.circular n) :=
  c2_cycle_detected gCyc { pm0 with graph := gCyc } (by decide)
    ⟨"a", ["b", "c"], by decide⟩ rfl

end Doffy
